import Mathlib

/-!
Verification of the galzu-lead-finder ingestion / merge / scoring / website-audit
pipeline. The definitions below are shallow embeddings of `src/app/db.py`
(`upsert_leads_from_rows`, `update_lead`, `_normalize_row`), `src/app/scoring.py`
(`score_row`) and `src/app/audit.py` (`audit_website`); the theorems settle the
spec claims about them.
-/

namespace Galzu

/-! ## Python string primitives -/

/-- Trim whitespace from both ends of a character list (Python `str.strip()`). -/
def trimChars (l : List Char) : List Char :=
  ((l.dropWhile Char.isWhitespace).reverse.dropWhile Char.isWhitespace).reverse

/-- Python `str.strip()` on `String`. -/
def pyStrip (s : String) : String := String.mk (trimChars s.data)

/-- Python `str.lstrip("@")`: drop every leading `'@'`. -/
def pyLstripAt (s : String) : String := String.mk (s.data.dropWhile (fun c => c = '@'))

/-- Python `str.lower()` (ASCII case folding, as the repository's data is ASCII). -/
def pyLower (s : String) : String := String.mk (s.data.map Char.toLower)

/-! ## Data model of the `leads` table (db.py lines 45-73)

Only the columns touched by the ingestion upsert and the operator update path
are modeled; `followers`/`score` are modeled after the `_to_int` coercion
(empty / non-numeric input is `none`, never zero). -/

structure Lead where
  profile_url : Option String
  name : String
  bio : String
  followers : Option Int
  location : String
  website : Option String
  phone : Option String
  email : Option String
  recent_post_snippet : String
  signal_keywords_matched : String
  score : Option Int
  reason : String
  status : String
  notes : String
  tags : String
  last_seen_at : Int
  created_at : Int
  deriving DecidableEq

/-- A normalized input row as consumed by the upsert loop of
`upsert_leads_from_rows` (db.py lines 140-199): the string fields the loop
reads out of `r2`, with `followers`/`score` modeled post-`_to_int`. -/
structure InRow where
  handle : String
  profile_url : String
  name : String
  bio : String
  followers : Option Int
  location : String
  website : String
  phone : String
  email : String
  recent_post_snippet : String
  signal_keywords_matched : String
  score : Option Int
  reason : String
  deriving DecidableEq

/-- The leads store, keyed by the unique `(source, handle)` identity. -/
abbrev Store := String × String → Option Lead

/-- `src = (source or "manual").strip().lower()` (db.py line 141). -/
def srcNorm (source : String) : String :=
  pyLower (pyStrip (if source = "" then "manual" else source))

/-- `handle = (r2.get("handle") or "").strip().lstrip("@")` (db.py line 143). -/
def rowHandle (r : InRow) : String := pyLstripAt (pyStrip r.handle)

/-- SQL `NULLIF(x, '')` on an optional text value. -/
def nullifEmpty (o : Option String) : Option String :=
  o.bind (fun s => if s = "" then none else some s)

/-- The `VALUES` tuple bound by the upsert statement (db.py lines 180-197):
every text field is bound stripped, `profile_url` is bound as
`profile_url or None`. -/
structure Vals where
  profile_url : Option String
  name : String
  bio : String
  location : String
  website : String
  phone : String
  email : String
  snippet : String
  skm : String
  reason : String
  followers : Option Int
  score : Option Int

def valsOf (r : InRow) : Vals :=
  { profile_url := if pyStrip r.profile_url = "" then none else some (pyStrip r.profile_url)
    name := pyStrip r.name
    bio := pyStrip r.bio
    location := pyStrip r.location
    website := pyStrip r.website
    phone := pyStrip r.phone
    email := pyStrip r.email
    snippet := pyStrip r.recent_post_snippet
    skm := pyStrip r.signal_keywords_matched
    reason := pyStrip r.reason
    followers := r.followers
    score := r.score }

/-- The `INSERT` arm: a fresh row takes the bound values, the column defaults
`status='new'`, `notes=''`, `tags='[]'`, and `created_at = last_seen_at = now`. -/
def insertLead (v : Vals) (now : Int) : Lead :=
  { profile_url := v.profile_url
    name := v.name
    bio := v.bio
    followers := v.followers
    location := v.location
    website := some v.website
    phone := some v.phone
    email := some v.email
    recent_post_snippet := v.snippet
    signal_keywords_matched := v.skm
    score := v.score
    reason := v.reason
    status := "new"
    notes := ""
    tags := "[]"
    last_seen_at := now
    created_at := now }

/-- The `ON CONFLICT(source, handle) DO UPDATE SET` arm (db.py lines 165-178).
`profile_url`/`website`/`phone`/`email` use `COALESCE(NULLIF(excluded, ''), old)`;
`status`/`notes`/`tags`/`created_at` are absent from the `SET` list. -/
def mergeLead (old : Lead) (v : Vals) (now : Int) : Lead :=
  { old with
    profile_url := (nullifEmpty v.profile_url).orElse (fun _ => old.profile_url)
    name := v.name
    bio := v.bio
    followers := v.followers
    location := v.location
    website := if v.website = "" then old.website else some v.website
    phone := if v.phone = "" then old.phone else some v.phone
    email := if v.email = "" then old.email else some v.email
    recent_post_snippet := v.snippet
    signal_keywords_matched := v.skm
    score := v.score
    reason := v.reason
    last_seen_at := now }

/-- One iteration of the upsert loop of `upsert_leads_from_rows`
(db.py lines 140-199) on the keyed store: rows whose handle normalizes to the
empty string are skipped; otherwise insert-or-merge at `(source, handle)`. -/
def upsertRow (st : Store) (source : String) (r : InRow) (now : Int) : Store :=
  let src := srcNorm source
  let handle := rowHandle r
  if handle = "" then st
  else fun k =>
    if k = (src, handle) then
      some (match st (src, handle) with
            | none => insertLead (valsOf r) now
            | some old => mergeLead old (valsOf r) now)
    else st k

/-! ## The operator update path `update_lead` (db.py lines 261-280) -/

/-- A patch value: a scalar string or a list (for `tags`). -/
inductive PVal where
  | s (v : String)
  | l (v : List String)
  deriving DecidableEq

def jsonQuote (x : String) : String := "\"" ++ x ++ "\""

def jsonList (xs : List String) : String :=
  "[" ++ String.intercalate "," (xs.map jsonQuote) ++ "]"

/-- `json.dumps(v or [])` for the `tags` patch value. -/
def jsonTags : PVal → String
  | .s v => if v = "" then jsonList [] else jsonQuote v
  | .l xs => jsonList xs

/-- The raw scalar bound for a `status` / `notes` assignment. -/
def pvStore : PVal → String
  | .s v => v
  | .l xs => jsonList xs

/-- The store keyed by the integer primary key, as `update_lead`/`get_lead` see it. -/
abbrev IdStore := Int → Option Lead

def allowedKey (k : String) : Bool := k = "status" || k = "notes" || k = "tags"

/-- One collected `k=?` assignment of the `UPDATE leads SET ...` statement. -/
def applyField (l : Lead) (kv : String × PVal) : Lead :=
  if kv.1 = "tags" then { l with tags := jsonTags kv.2 }
  else if kv.1 = "status" then { l with status := pvStore kv.2 }
  else if kv.1 = "notes" then { l with notes := pvStore kv.2 }
  else l

/-- `update_lead` (db.py lines 261-280): keep only the allowed keys of the
patch in order; with no allowed key, run no `UPDATE` and return the current
row; otherwise apply the assignments at `id` and return the updated row. -/
def update_lead (ist : IdStore) (id : Int) (patch : List (String × PVal)) :
    IdStore × Option Lead :=
  let fields := patch.filter (fun kv => allowedKey kv.1)
  if fields.isEmpty then (ist, ist id)
  else
    let ist' : IdStore := fun i =>
      if i = id then (ist id).map (fun l => fields.foldl applyField l) else ist i
    (ist', ist' id)

/-- All fields of a lead other than the operator-owned `status`/`notes`/`tags`
agree. -/
def sameNonOp (a b : Lead) : Prop :=
  a.profile_url = b.profile_url ∧ a.name = b.name ∧ a.bio = b.bio ∧
  a.followers = b.followers ∧ a.location = b.location ∧ a.website = b.website ∧
  a.phone = b.phone ∧ a.email = b.email ∧
  a.recent_post_snippet = b.recent_post_snippet ∧
  a.signal_keywords_matched = b.signal_keywords_matched ∧
  a.score = b.score ∧ a.reason = b.reason ∧
  a.last_seen_at = b.last_seen_at ∧ a.created_at = b.created_at

instance (a b : Lead) : Decidable (sameNonOp a b) := by
  unfold sameNonOp; infer_instance

/-! ## Claim C1: keep-if-new-nonempty merge for contact fields -/

/-- C1: merging an observation for an already persisted `(source, handle)`
keeps the stored `website` when the incoming one is empty and replaces it when
the incoming one is non-empty; the same rule holds for `profile_url`, `phone`
and `email`. -/
theorem merge_keep_if_new_nonempty (st : Store) (source : String) (r : InRow)
    (now : Int) (old : Lead)
    (hh : rowHandle r ≠ "")
    (hold : st (srcNorm source, rowHandle r) = some old) :
    ∃ nw, upsertRow st source r now (srcNorm source, rowHandle r) = some nw ∧
      nw.website = (if pyStrip r.website = "" then old.website
                    else some (pyStrip r.website)) ∧
      nw.phone = (if pyStrip r.phone = "" then old.phone
                  else some (pyStrip r.phone)) ∧
      nw.email = (if pyStrip r.email = "" then old.email
                  else some (pyStrip r.email)) ∧
      nw.profile_url = (if pyStrip r.profile_url = "" then old.profile_url
                        else some (pyStrip r.profile_url)) := by
  refine ⟨mergeLead old (valsOf r) now, ?_, ?_, ?_, ?_, ?_⟩
  · simp only [upsertRow, if_neg hh, if_pos rfl, hold]
  · by_cases hw : pyStrip r.website = "" <;> simp [mergeLead, valsOf, hw]
  · by_cases hw : pyStrip r.phone = "" <;> simp [mergeLead, valsOf, hw]
  · by_cases hw : pyStrip r.email = "" <;> simp [mergeLead, valsOf, hw]
  · by_cases hw : pyStrip r.profile_url = "" <;>
      simp [mergeLead, valsOf, nullifEmpty, hw, Option.orElse]

/-- A concrete lead used by the witnesses. -/
def leadW : Lead :=
  { profile_url := some "https://x.com/bob"
    name := "Bob"
    bio := "plumber"
    followers := some 10
    location := "LA"
    website := some "https://bob.example"
    phone := some "555"
    email := none
    recent_post_snippet := ""
    signal_keywords_matched := ""
    score := some 50
    reason := ""
    status := "contacted"
    notes := "spoke on monday"
    tags := "[\"hot\"]"
    last_seen_at := 100
    created_at := 100 }

/-- A concrete store holding `leadW` under `("x", "bob")`. -/
def storeW : Store := fun k => if k = ("x", "bob") then some leadW else none

/-- A concrete re-ingested row for the same identity, with empty `website`,
non-empty `phone`. -/
def rowW : InRow :=
  { handle := "@bob"
    profile_url := ""
    name := "Bobby"
    bio := "plumber and dad"
    followers := some 12
    location := "LA"
    website := ""
    phone := "666"
    email := ""
    recent_post_snippet := ""
    signal_keywords_matched := ""
    score := some 60
    reason := "" }

theorem merge_keep_if_new_nonempty_witness :
    ∃ nw, upsertRow storeW "x" rowW 200 (srcNorm "x", rowHandle rowW) = some nw ∧
      nw.website = (if pyStrip rowW.website = "" then leadW.website
                    else some (pyStrip rowW.website)) ∧
      nw.phone = (if pyStrip rowW.phone = "" then leadW.phone
                  else some (pyStrip rowW.phone)) ∧
      nw.email = (if pyStrip rowW.email = "" then leadW.email
                  else some (pyStrip rowW.email)) ∧
      nw.profile_url = (if pyStrip rowW.profile_url = "" then leadW.profile_url
                        else some (pyStrip rowW.profile_url)) :=
  merge_keep_if_new_nonempty storeW "x" rowW 200 leadW (by decide) (by decide)

/-! ## Claim C2: operator-owned fields -/

/-- C2: (a) an ingestion merge never touches `status`/`notes`/`tags`; (b) the
operator update path changes nothing outside these three fields; (c) each of
the three allowed keys is accepted and applied. -/
theorem operator_fields_policy :
    (∀ (st : Store) (source : String) (r : InRow) (now : Int) (old : Lead),
      rowHandle r ≠ "" → st (srcNorm source, rowHandle r) = some old →
      ∃ nw, upsertRow st source r now (srcNorm source, rowHandle r) = some nw ∧
        nw.status = old.status ∧ nw.notes = old.notes ∧ nw.tags = old.tags) ∧
    (∀ (ist : IdStore) (id : Int) (patch : List (String × PVal)) (l l' : Lead),
      ist id = some l → (update_lead ist id patch).1 id = some l' →
      sameNonOp l' l) ∧
    (∀ (ist : IdStore) (id : Int) (l : Lead) (v : PVal), ist id = some l →
      (update_lead ist id [("status", v)]).1 id = some { l with status := pvStore v } ∧
      (update_lead ist id [("notes", v)]).1 id = some { l with notes := pvStore v } ∧
      (update_lead ist id [("tags", v)]).1 id = some { l with tags := jsonTags v }) := by
  refine ⟨?_, ?_, ?_⟩
  · intro st source r now old hh hold
    refine ⟨mergeLead old (valsOf r) now, ?_, rfl, rfl, rfl⟩
    simp only [upsertRow, if_neg hh, if_pos rfl, hold]
  · intro ist id patch l l' hl hl'
    have hfold : ∀ (fs : List (String × PVal)) (x : Lead),
        sameNonOp (fs.foldl applyField x) x := by
      intro fs
      induction fs with
      | nil => intro x; simp [sameNonOp]
      | cons kv tl ih =>
        intro x
        have h1 : sameNonOp (applyField x kv) x := by
          unfold applyField
          by_cases h : kv.1 = "tags" <;> by_cases h2 : kv.1 = "status" <;>
            by_cases h3 : kv.1 = "notes" <;> simp [h, h2, h3, sameNonOp]
        have h2 := ih (applyField x kv)
        simp only [List.foldl_cons]
        obtain ⟨a1, a2, a3, a4, a5, a6, a7, a8, a9, a10, a11, a12, a13, a14⟩ := h2
        obtain ⟨b1, b2, b3, b4, b5, b6, b7, b8, b9, b10, b11, b12, b13, b14⟩ := h1
        exact ⟨a1.trans b1, a2.trans b2, a3.trans b3, a4.trans b4, a5.trans b5,
               a6.trans b6, a7.trans b7, a8.trans b8, a9.trans b9, a10.trans b10,
               a11.trans b11, a12.trans b12, a13.trans b13, a14.trans b14⟩
    unfold update_lead at hl'
    by_cases hf : (patch.filter (fun kv => allowedKey kv.1)).isEmpty
    · simp only [hf, if_pos] at hl'
      simp only [hl] at hl'
      cases hl'
      simp [sameNonOp]
    · simp only [hf, if_neg, Bool.false_eq_true, not_false_iff, if_pos rfl] at hl'
      simp only [hl, Option.map_some'] at hl'
      cases hl'
      exact hfold _ l
  · intro ist id l v hl
    refine ⟨?_, ?_, ?_⟩ <;>
      simp [update_lead, allowedKey, List.filter, hl, applyField]

theorem operator_fields_policy_witness :
    (∃ nw, upsertRow storeW "x" rowW 200 (srcNorm "x", rowHandle rowW) = some nw ∧
       nw.status = leadW.status ∧ nw.notes = leadW.notes ∧ nw.tags = leadW.tags) ∧
    (∃ l', (update_lead (fun i => if i = 7 then some leadW else none) 7
        [("status", PVal.s "won"), ("bogus", PVal.s "zap")]).1 7 = some l' ∧
      sameNonOp l' leadW) ∧
    ((update_lead (fun i => if i = 7 then some leadW else none) 7
        [("notes", PVal.s "called")]).1 7 =
      some { leadW with notes := pvStore (PVal.s "called") }) := by
  obtain ⟨h1, h2, h3⟩ := operator_fields_policy
  refine ⟨h1 storeW "x" rowW 200 leadW (by decide) (by decide), ?_, ?_⟩
  · have hres : (update_lead (fun i => if i = 7 then some leadW else none) 7
        [("status", PVal.s "won"), ("bogus", PVal.s "zap")]).1 7 =
        some { leadW with status := "won" } := by decide
    exact ⟨{ leadW with status := "won" }, hres,
      h2 (fun i => if i = 7 then some leadW else none) 7
        [("status", PVal.s "won"), ("bogus", PVal.s "zap")] leadW _ (by decide) hres⟩
  · exact (h3 (fun i => if i = 7 then some leadW else none) 7 leadW
      (PVal.s "called") (by decide)).2.1

/-! ## Claim C10: unknown patch keys are ignored -/

/-- C10: `update_lead` behaves identically when keys outside
`{status, notes, tags}` are removed from the patch (they are silently ignored,
never rejected), and a patch with no allowed key leaves the store untouched and
returns the current record. -/
theorem update_lead_ignores_unknown_keys (ist : IdStore) (id : Int)
    (patch : List (String × PVal)) :
    update_lead ist id patch =
      update_lead ist id (patch.filter (fun kv => allowedKey kv.1)) ∧
    (patch.filter (fun kv => allowedKey kv.1) = [] →
      update_lead ist id patch = (ist, ist id)) := by
  constructor
  · unfold update_lead
    rw [List.filter_filter]
    simp only [Bool.and_self]
  · intro hnone
    unfold update_lead
    rw [hnone]
    simp

theorem update_lead_ignores_unknown_keys_witness :
    (update_lead (fun i => if i = 7 then some leadW else none) 7
        [("bogus", PVal.s "zap"), ("status", PVal.s "won")] =
      update_lead (fun i => if i = 7 then some leadW else none) 7
        ([("bogus", PVal.s "zap"), ("status", PVal.s "won")].filter
          (fun kv => allowedKey kv.1))) ∧
    ([("bogus", PVal.s "zap")].filter (fun kv => allowedKey kv.1) = [] →
      update_lead (fun i => if i = 7 then some leadW else none) 7
          [("bogus", PVal.s "zap")] =
        (fun i => if i = 7 then some leadW else none, (fun i : Int =>
          if i = 7 then some leadW else none) 7)) :=
  ⟨(update_lead_ignores_unknown_keys _ 7 _).1,
   (update_lead_ignores_unknown_keys _ 7 _).2⟩

/-! ## The record normalizer `_normalize_row` (db.py lines 467-514)

Raw rows are flat string-keyed mappings with arbitrary scalar values; Python
scalars are modeled by `PyVal` and dicts by association lists where the last
binding for a key wins (as in a dict comprehension). `.strip()` on a non-string
truthy value raises `AttributeError`, so the normalizer is an `Except`. -/

inductive PyVal where
  | none
  | str (s : String)
  | int (n : Int)
  | bool (b : Bool)
  deriving DecidableEq

abbrev Dict := List (String × PyVal)

def dGet (d : Dict) (k : String) : Option PyVal :=
  (d.reverse.find? (fun kv => kv.1 = k)).map (fun kv => kv.2)

def dGetV (d : Dict) (k : String) : PyVal := (dGet d k).getD PyVal.none

def dSet (d : Dict) (k : String) (v : PyVal) : Dict := d ++ [(k, v)]

/-- Python truthiness of a scalar. -/
def pyTruthy : PyVal → Bool
  | .none => false
  | .str s => s ≠ ""
  | .int n => n ≠ 0
  | .bool b => b

/-- Python `a or b`. -/
def pyOrV (a b : PyVal) : PyVal := if pyTruthy a then a else b

/-- `out.get(k1) or out.get(k2) or ... or ""` (first truthy value, else `""`). -/
def aliasVal (d : Dict) (keys : List String) : PyVal :=
  keys.foldr (fun k acc => pyOrV (dGetV d k) acc) (.str "")

/-- `.strip()` on a scalar: only strings have `.strip`; any other scalar
raises `AttributeError`. -/
def pyStripE : PyVal → Except String String
  | .str s => .ok (pyStrip s)
  | _ => .error "AttributeError"

/-- Key normalization of the input dict: `str(k).strip().lower()`. -/
def lowKeys (d : Dict) : Dict := d.map (fun kv => (pyLower (pyStrip kv.1), kv.2))

/-- db.py lines 475-476: alias chain for the handle, then
`.strip().lstrip("@").strip()`. -/
def rawHandle (low : Dict) : Except String String :=
  match pyStripE (aliasVal low ["handle", "username", "user", "page"]) with
  | .error e => .error e
  | .ok h => .ok (pyStrip (pyLstripAt h))

def isSubList (p s : List Char) : Bool := s.tails.any (fun t => p.isPrefixOf t)

/-- Python `needle in hay` on strings. -/
def sContains (needle hay : String) : Bool := isSubList needle.data hay.data

/-- db.py lines 478-483: profile-url alias chain; a generic `url` is accepted
only when it contains a recognizable social-domain substring. -/
def resolvedProfile (low : Dict) : Except String String :=
  match pyStripE (aliasVal low ["profile_url", "profile", "profilelink", "profile_link"]) with
  | .error e => .error e
  | .ok pu =>
    if pu = "" then
      match pyStripE (aliasVal low ["url"]) with
      | .error e => .error e
      | .ok u =>
        .ok (if sContains "instagram.com/" u || sContains "facebook.com/" u then u else "")
    else .ok pu

/-- `p.split(m, 1)[1]`: everything after the first occurrence of `m`. -/
def splitAfterFirst (m : List Char) : List Char → List Char
  | [] => []
  | c :: tl => if m.isPrefixOf (c :: tl) then (c :: tl).drop m.length
               else splitAfterFirst m tl

/-- `p.split(m, 1)[0]`: everything before the first occurrence of `m`
(the whole string when `m` is absent). -/
def beforeFirst (m : List Char) : List Char → List Char
  | [] => []
  | c :: tl => if m.isPrefixOf (c :: tl) then [] else c :: beforeFirst m tl

/-- `.strip("/")`. -/
def stripSlashes (l : List Char) : List Char :=
  ((l.dropWhile (fun c => c = '/')).reverse.dropWhile (fun c => c = '/')).reverse

/-- db.py lines 489/491: `p.split(marker, 1)[1].split("?", 1)[0].strip("/").split("/", 1)[0]` —
the first path segment after the domain marker, with the query string and
leading/trailing slashes stripped. -/
def deriveSeg (m p : List Char) : List Char :=
  beforeFirst "/".data (stripSlashes (beforeFirst "?".data (splitAfterFirst m p)))

/-- db.py lines 486-493: derive a handle from a profile URL containing a
recognized social-domain marker (instagram checked before facebook); yields
`""` when neither marker occurs (the code leaves the empty handle unchanged). -/
def deriveFromUrl (p : String) : String :=
  if sContains "instagram.com/" p then String.mk (deriveSeg "instagram.com/".data p.data)
  else if sContains "facebook.com/" p then String.mk (deriveSeg "facebook.com/".data p.data)
  else ""

def mapsSources : List String := ["google_maps", "gmb", "maps", "local"]

/-- The output dict built at db.py lines 500-514 once `handle` and
`profile_url` are settled: set both, then fill `bio`/`website`/`phone`/
`recent_post_snippet` from their alias chains when empty. -/
def normalizeOut (low : Dict) (h3 pu : String) : Dict :=
  let out1 := dSet (dSet low "handle" (.str h3)) "profile_url" (.str pu)
  let out2 := if pyTruthy (dGetV out1 "bio") then out1
              else dSet out1 "bio" (aliasVal out1 ["description", "about"])
  let out3 := if pyTruthy (dGetV out2 "website") then out2
              else dSet out2 "website" (aliasVal out2 ["website_url", "site"])
  let out4 := if pyTruthy (dGetV out3 "phone") then out3
              else dSet out3 "phone" (aliasVal out3 ["phone_number", "tel", "mobile"])
  if pyTruthy (dGetV out4 "recent_post_snippet") then out4
  else dSet out4 "recent_post_snippet" (aliasVal out4 ["snippet", "caption", "post_text"])

/-- `_normalize_row` (db.py lines 467-514). -/
def normalizeRow (d : Dict) (source : String) : Except String Dict :=
  let low := lowKeys d
  match rawHandle low with
  | .error e => .error e
  | .ok h1 =>
    match resolvedProfile low with
    | .error e => .error e
    | .ok pu =>
      let h2 := if pu ≠ "" ∧ h1 = "" then deriveFromUrl pu else h1
      match (if h2 = "" ∧ pyLower (pyStrip source) ∈ mapsSources then
              pyStripE (pyOrV (.str pu) (pyOrV (dGetV low "name") (.str "")))
             else .ok h2) with
      | .error e => .error e
      | .ok h3 => .ok (normalizeOut low h3 pu)

def isStrOrNone : PyVal → Bool
  | .str _ => true
  | .none => true
  | _ => false

theorem dGet_dSet (d : Dict) (k : String) (v : PyVal) (q : String) :
    dGet (dSet d k v) q = if q = k then some v else dGet d q := by
  simp only [dGet, dSet, List.reverse_append, List.reverse_cons, List.reverse_nil,
    List.nil_append, List.cons_append, List.find?]
  by_cases h : q = k
  · simp [h]
  · simp only [h, if_false]
    have : (k = q) = False := by
      simp only [eq_iff_iff, iff_false]
      exact fun hk => h hk.symm
    simp [this]

theorem aliasVal_isStr (d : Dict) (keys : List String)
    (h : ∀ kv ∈ d, isStrOrNone kv.2 = true) :
    ∃ s, aliasVal d keys = .str s := by
  have hget : ∀ k, isStrOrNone (dGetV d k) = true := by
    intro k
    unfold dGetV dGet
    cases hf : d.reverse.find? (fun kv => kv.1 = k) with
    | none => simp [isStrOrNone]
    | some kv =>
      have hmem : kv ∈ d := by
        have := List.mem_of_find?_eq_some hf
        exact (List.mem_reverse).1 this
      simpa using h kv hmem
  induction keys with
  | nil => exact ⟨"", rfl⟩
  | cons k tl ih =>
    obtain ⟨s, hs⟩ := ih
    show ∃ t, pyOrV (dGetV d k) (aliasVal d tl) = .str t
    rcases hv : dGetV d k with _ | t | n | b
    · exact ⟨s, by simp [pyOrV, hv, pyTruthy, hs]⟩
    · by_cases he : t = ""
      · exact ⟨s, by simp [pyOrV, hv, pyTruthy, he, hs]⟩
      · exact ⟨t, by simp [pyOrV, hv, pyTruthy, he]⟩
    · have := hget k; rw [hv] at this; simp [isStrOrNone] at this
    · have := hget k; rw [hv] at this; simp [isStrOrNone] at this

theorem pyOrV_name_isStr (d : Dict) (pu : String)
    (h : ∀ kv ∈ d, isStrOrNone kv.2 = true) :
    ∃ s, pyOrV (.str pu) (pyOrV (dGetV d "name") (.str "")) = PyVal.str s := by
  have h1 : ∃ t, pyOrV (dGetV d "name") (.str "") = PyVal.str t := by
    have := aliasVal_isStr d ["name"] h
    simpa [aliasVal] using this
  obtain ⟨t, ht⟩ := h1
  unfold pyOrV
  by_cases hp : pyTruthy (.str pu) = true
  · exact ⟨pu, by simp [hp]⟩
  · simp only [Bool.not_eq_true] at hp
    simp only [hp, if_false]
    unfold pyOrV at ht
    exact ⟨t, ht⟩

theorem dGet_normalizeOut_handle (low : Dict) (h3 pu : String) :
    dGet (normalizeOut low h3 pu) "handle" = some (.str h3) := by
  simp only [normalizeOut]
  split_ifs <;> simp [dGet_dSet]

/-- C3 (amended part): on rows whose values are all strings or `None`,
normalization never raises, and the output always carries a string handle
(possibly empty — the skip signal). -/
theorem normalizeRow_total_on_string_rows (d : Dict) (source : String)
    (h : ∀ kv ∈ d, isStrOrNone kv.2 = true) :
    ∃ out, normalizeRow d source = .ok out ∧
      ∃ hs, dGet out "handle" = some (.str hs) := by
  have hlow : ∀ kv ∈ lowKeys d, isStrOrNone kv.2 = true := by
    intro kv hkv
    simp only [lowKeys, List.mem_map] at hkv
    obtain ⟨kv0, hkv0, rfl⟩ := hkv
    exact h kv0 hkv0
  obtain ⟨s1, hs1⟩ := aliasVal_isStr (lowKeys d) ["handle", "username", "user", "page"] hlow
  have hrh : rawHandle (lowKeys d) = .ok (pyStrip (pyLstripAt (pyStrip s1))) := by
    simp [rawHandle, hs1, pyStripE]
  obtain ⟨s2, hs2⟩ := aliasVal_isStr (lowKeys d)
    ["profile_url", "profile", "profilelink", "profile_link"] hlow
  obtain ⟨s3, hs3⟩ := aliasVal_isStr (lowKeys d) ["url"] hlow
  have hrp : ∃ pu, resolvedProfile (lowKeys d) = .ok pu := by
    unfold resolvedProfile
    rw [hs2]
    by_cases he : pyStrip s2 = ""
    · refine ⟨if sContains "instagram.com/" (pyStrip s3)
            || sContains "facebook.com/" (pyStrip s3) then pyStrip s3 else "", ?_⟩
      simp [pyStripE, he, hs3]
    · exact ⟨pyStrip s2, by simp [pyStripE, he]⟩
  obtain ⟨pu, hpu⟩ := hrp
  obtain ⟨s4, hs4⟩ := pyOrV_name_isStr (lowKeys d) pu hlow
  simp only [normalizeRow]
  rw [hrh, hpu]
  dsimp only
  by_cases hcond : ((if pu ≠ "" ∧ pyStrip (pyLstripAt (pyStrip s1)) = ""
        then deriveFromUrl pu else pyStrip (pyLstripAt (pyStrip s1))) = ""
      ∧ pyLower (pyStrip source) ∈ mapsSources)
  · rw [if_pos hcond, hs4]
    dsimp only [pyStripE]
    exact ⟨_, rfl, pyStrip s4, dGet_normalizeOut_handle _ _ _⟩
  · rw [if_neg hcond]
    exact ⟨_, rfl, _, dGet_normalizeOut_handle _ _ _⟩

/-- C3 counterexample: a row with a truthy non-string `handle` makes
`_normalize_row` raise `AttributeError` (from `.strip()` on an `int`),
refuting "never raises for arbitrary scalar values". -/
theorem normalizeRow_raises_on_int_handle :
    normalizeRow [("handle", PyVal.int 5)] "x" = .error "AttributeError" := by
  rfl

theorem normalizeRow_total_witness :
    ∃ out, normalizeRow [("Handle", PyVal.str "@bob"), ("Bio", PyVal.none)] "x" = .ok out ∧
      ∃ hs, dGet out "handle" = some (.str hs) :=
  normalizeRow_total_on_string_rows
    [("Handle", PyVal.str "@bob"), ("Bio", PyVal.none)] "x" (by decide)

/-! ## Claim C7: handle derivation from a social profile URL -/

/-- C7 counterexample: with a maps-type source and a profile URL whose path
after the domain marker is empty, the maps fallback substitutes the whole
profile URL, so the stored handle is not the derived first path segment. -/
theorem normalize_maps_overrides_derivation :
    (normalizeRow [("profile", PyVal.str "instagram.com/")] "maps").toOption.bind
        (fun o => dGet o "handle") = some (.str "instagram.com/") ∧
    deriveFromUrl "instagram.com/" = "" := by
  constructor
  · rfl
  · rfl

/-- C7 (amended): when the canonical handle is empty after alias lookup and
the resolved profile URL contains a recognized social-domain marker, the
normalized handle equals the first path segment after the marker with the
query string and leading/trailing slashes stripped (`deriveFromUrl`) —
provided the maps/local-source fallback does not fire (non-maps source, or a
non-empty derived segment). -/
theorem normalize_derives_handle (d : Dict) (source : String) (p : String)
    (hh : rawHandle (lowKeys d) = .ok "")
    (hp : resolvedProfile (lowKeys d) = .ok p)
    (hmark : sContains "instagram.com/" p = true ∨ sContains "facebook.com/" p = true)
    (hnf : pyLower (pyStrip source) ∉ mapsSources ∨ deriveFromUrl p ≠ "") :
    ∃ out, normalizeRow d source = .ok out ∧
      dGet out "handle" = some (.str (deriveFromUrl p)) := by
  have hpne : p ≠ "" := by
    intro he
    subst he
    rcases hmark with hm | hm
    · exact absurd hm (by decide)
    · exact absurd hm (by decide)
  simp only [normalizeRow]
  rw [hh, hp]
  dsimp only
  have hcond : (if p ≠ "" ∧ ("" : String) = "" then deriveFromUrl p else "") =
      deriveFromUrl p := if_pos ⟨hpne, rfl⟩
  rw [hcond]
  have hneg : ¬ (deriveFromUrl p = "" ∧ pyLower (pyStrip source) ∈ mapsSources) := by
    rcases hnf with hnf | hnf
    · exact fun hc => hnf hc.2
    · exact fun hc => hnf hc.1
  rw [if_neg hneg]
  exact ⟨_, rfl, dGet_normalizeOut_handle _ _ _⟩

def rowC7 : Dict :=
  [("username", PyVal.str ""), ("profile_url", PyVal.str "https://instagram.com/alice/posts?x=1")]

theorem normalize_derives_handle_witness :
    ∃ out, normalizeRow rowC7 "x" = .ok out ∧
      dGet out "handle" =
        some (.str (deriveFromUrl "https://instagram.com/alice/posts?x=1")) :=
  normalize_derives_handle rowC7 "x" "https://instagram.com/alice/posts?x=1"
    (by rfl) (by rfl) (Or.inl (by rfl)) (Or.inl (by decide))

/-! ## The website audit classifier `audit_website` (audit.py)

HTML inspection works over lower-cased character lists. The network fetch is a
parameter `fetch : String → FetchOutcome`; a result that is independent of
`fetch` performs no network call. The wall clock `_now_unix()` is the explicit
parameter `now`. -/

abbrev Str := List Char

def lowerStr (s : Str) : Str := s.map Char.toLower

def lowerString (s : String) : String := String.mk (lowerStr s.data)

/-- The ASCII single-quote character (written via its code point). -/
def quoteChar : Char := Char.ofNat 39

def WEAK_LINK_HOSTS : List String :=
  ["linktr.ee", "carrd.co", "notion.site", "beacons.ai", "taplink.cc",
   "stan.store", "gumroad.com", "calendly.com"]

def PARKED_PHRASES : List String :=
  ["domain parked", "this domain is parked", "buy this domain",
   "this website is coming soon", "coming soon", "under construction",
   "site is not configured", "account suspended"]

/-- `AuditConfig` (audit.py lines 34-38); `timeout_s` and `sleep_s` do not
affect any result value and are omitted. -/
structure AuditConfig where
  maxBytes : Nat

def isSchemeChar (c : Char) : Bool := c.isAlpha || c.isDigit || c = '+' || c = '-' || c = '.'

/-- `re.match(r"^[a-zA-Z][a-zA-Z0-9+\-.]*://", url)`. -/
def hasScheme (s : String) : Bool :=
  match s.data with
  | [] => false
  | c :: rest => c.isAlpha && "://".data.isPrefixOf ((c :: rest).dropWhile isSchemeChar)

/-- `_normalize_url` (audit.py lines 45-51): default a bare domain to `https://`. -/
def normalize_url (url : String) : String :=
  let u := pyStrip url
  if u = "" then "" else if hasScheme u then u else "https://" ++ u

/-- `_host` (audit.py lines 54-58): `urlparse(url).netloc.lower()` — the part
after `://` up to the first `/`, `?` or `#`; empty when the URL has no
`scheme://` prefix. -/
def hostOf (u : String) : String :=
  if hasScheme u then
    String.mk (lowerStr (((u.data.dropWhile isSchemeChar).drop 3).takeWhile
      (fun c => c ≠ '/' && c ≠ '?' && c ≠ '#')))
  else ""

def sEndsWith (s suffix : String) : Bool := suffix.data.isSuffixOf s.data

/-- `any(host == h or host.endswith("." + h) for h in WEAK_LINK_HOSTS)`. -/
def isWeakHost (host : String) : Bool :=
  WEAK_LINK_HOSTS.any (fun h => host = h || sEndsWith host ("." ++ h))

/-- Outcome of `urllib.request.urlopen` on the normalized URL: an
`HTTPError`, any other exception (by type name), or a response with status,
final URL, content type and the body read up to `max_bytes + 1` characters. -/
inductive FetchOutcome where
  | httpError (code : Int)
  | failure (excName : String)
  | ok (status : Option Int) (finalUrl : String) (ctype : String) (body : Str)

structure AuditResult where
  website_score : Int
  website_verdict : String
  website_findings : String
  website_http_status : Option Int
  website_final_url : String
  website_checked_at : Int
  deriving DecidableEq

/-- `'name="viewport"' in html_l or "name='viewport'" in html_l`. -/
def hasViewport (h : Str) : Bool :=
  isSubList "name=\"viewport\"".data h ||
  isSubList ("name=".data ++ quoteChar :: "viewport".data ++ [quoteChar]) h

/-- `re.search(r"<title>\s*[^<]{3,}</title>", html_l)`: some `<title>` whose
maximal non-`<` run has length at least 3 and is closed by `</title>`. -/
def titleAt (t : Str) : Bool :=
  if "<title>".data.isPrefixOf t then
    let rest := t.drop 7
    let y := rest.takeWhile (fun c => c ≠ '<')
    "</title>".data.isPrefixOf (rest.drop y.length) && decide (3 ≤ y.length)
  else false

def hasTitleTag (h : Str) : Bool := h.tails.any titleAt

def hasMetaDesc (h : Str) : Bool :=
  isSubList "name=\"description\"".data h ||
  isSubList ("name=".data ++ quoteChar :: "description".data ++ [quoteChar]) h

/-- `re.search(r"<h1[^>]*>\s*[^<]{2,}", html_l)`. -/
def h1At (t : Str) : Bool :=
  if "<h1".data.isPrefixOf t then
    let rest := t.drop 3
    let attrs := rest.takeWhile (fun c => c ≠ '>')
    match rest.drop attrs.length with
    | [] => false
    | _ :: after => decide (2 ≤ (after.takeWhile (fun c => c ≠ '<')).length)
  else false

def hasH1 (h : Str) : Bool := h.tails.any h1At

def hasTel (h : Str) : Bool :=
  isSubList "href=\"tel:".data h ||
  isSubList ("href=".data ++ quoteChar :: "tel:".data) h

def hasMail (h : Str) : Bool :=
  isSubList "href=\"mailto:".data h ||
  isSubList ("href=".data ++ quoteChar :: "mailto:".data) h

def hasWhatsappHtml (h : Str) : Bool :=
  isSubList "wa.me/".data h || isSubList "api.whatsapp.com".data h ||
  isSubList "whatsapp".data h

def booking_kw : List String :=
  ["book", "booking", "quote", "estimate", "call", "whatsapp", "appointment", "schedule"]

def hasCTA (h : Str) : Bool := booking_kw.any (fun k => isSubList k.data h)

def trust_kw : List String :=
  ["review", "reviews", "testimonial", "testimonials", "before and after",
   "before & after", "rated"]

def hasTrust (h : Str) : Bool := trust_kw.any (fun k => isSubList k.data h)

def isWordChar (c : Char) : Bool := c.isAlpha || c.isDigit || c = '_'

/-- `len(re.findall(r"<script\b", html_l))`. -/
def scriptCount (h : Str) : Nat :=
  h.tails.countP (fun t =>
    "<script".data.isPrefixOf t &&
    (match t.drop 7 with
     | [] => true
     | c :: _ => !(isWordChar c)))

/-- The additive score of the scored path (audit.py lines 139-219), before
clamping, starting from the base 50. -/
def auditScoreRaw (h : Str) (truncated : Bool) : Int :=
  50 + (if hasViewport h then 10 else -10)
     + (if hasTitleTag h then 5 else -6)
     + (if hasMetaDesc h then 5 else 0)
     + (if hasH1 h then 5 else 0)
     + (if hasWhatsappHtml h then 10 else 0)
     + (if hasTel h then 8 else 0)
     + (if hasMail h then 4 else 0)
     + (if hasCTA h then 6 else -6)
     + (if hasTrust h then 6 else 0)
     + (if 35 ≤ scriptCount h then -8 else if 20 ≤ scriptCount h then -4 else 0)
     + (if truncated then -6 else 0)

def auditScore (h : Str) (truncated : Bool) : Int :=
  max 0 (min 100 (auditScoreRaw h truncated))

def auditVerdict (h : Str) (truncated : Bool) : String :=
  if auditScore h truncated ≤ 35 then "weak_site"
  else if auditScore h truncated ≤ 65 then "basic_site"
  else "good_site"

/-- The findings list of the scored path, in emission order, capped at 8, with
the synthetic no-contact finding prepended for weak/basic sites. -/
def auditFindingsList (h : Str) (truncated : Bool) : List String :=
  let fs :=
    (if hasViewport h then ["Has mobile viewport meta."]
     else ["Missing mobile viewport meta (mobile UX risk)."]) ++
    (if hasTitleTag h then [] else ["Missing/empty <title>."]) ++
    (if hasMetaDesc h then [] else ["Missing meta description (SEO baseline)."]) ++
    (if hasH1 h then [] else ["Missing/weak H1 (clarity)."]) ++
    (if hasWhatsappHtml h then ["Has WhatsApp contact."] else []) ++
    (if hasTel h then ["Has phone link."] else []) ++
    (if hasCTA h then [] else ["No obvious booking/quote CTA language."]) ++
    (if hasTrust h then ["Has trust signals (reviews/testimonials)."]
     else ["Weak trust signals (no clear reviews/testimonials found)."]) ++
    (if 35 ≤ scriptCount h then
        ["Very script-heavy (" ++ toString (scriptCount h) ++ " scripts)."]
     else if 20 ≤ scriptCount h then
        ["Somewhat script-heavy (" ++ toString (scriptCount h) ++ " scripts)."]
     else []) ++
    (if truncated then ["HTML is large/truncated (page weight risk)."] else [])
  let fs8 := fs.take 8
  if (auditVerdict h truncated = "weak_site" ∨ auditVerdict h truncated = "basic_site")
      ∧ ¬(hasTel h || hasWhatsappHtml h || hasMail h) = true then
    "No obvious contact links (phone/WhatsApp/email)." :: fs8
  else fs8

/-- The HTML branch of `audit_website` (audit.py lines 134-241): parked
detection, then the scored path. -/
def auditHtml (cfg : AuditConfig) (body : Str) (status : Option Int)
    (finalUrl : String) (now : Int) : AuditResult :=
  let truncated := decide (cfg.maxBytes < body.length)
  let htmlL := lowerStr (body.take cfg.maxBytes)
  if PARKED_PHRASES.any (fun p => isSubList p.data htmlL) then
    { website_score := 10, website_verdict := "parked_or_placeholder"
      website_findings := "Looks parked/placeholder/coming-soon."
      website_http_status := status, website_final_url := finalUrl
      website_checked_at := now }
  else
    { website_score := auditScore htmlL truncated
      website_verdict := auditVerdict htmlL truncated
      website_findings := String.intercalate "; " (auditFindingsList htmlL truncated)
      website_http_status := status, website_final_url := finalUrl
      website_checked_at := now }

/-- `audit_website` (audit.py lines 61-241). -/
def audit_website (cfg : AuditConfig) (fetch : String → FetchOutcome) (now : Int)
    (url : String) : AuditResult :=
  let raw := pyStrip url
  if raw = "" then
    { website_score := 0, website_verdict := "no_website"
      website_findings := "No website listed.", website_http_status := none
      website_final_url := "", website_checked_at := now }
  else
    let norm := normalize_url raw
    if isWeakHost (hostOf norm) then
      { website_score := 20, website_verdict := "weak_link_in_bio"
        website_findings := "Link-in-bio page (Linktree/Carrd/Notion/etc). Strong upgrade opportunity."
        website_http_status := none, website_final_url := norm
        website_checked_at := now }
    else
      match fetch norm with
      | .httpError code =>
        { website_score := 5, website_verdict := "unreachable"
          website_findings := "HTTP error " ++ toString code ++ "."
          website_http_status := some code, website_final_url := norm
          website_checked_at := now }
      | .failure en =>
        { website_score := 5, website_verdict := "unreachable"
          website_findings := "Could not fetch site (" ++ en ++ ")."
          website_http_status := none, website_final_url := norm
          website_checked_at := now }
      | .ok status finalUrl ctype body =>
        let ctypeL := lowerString ctype
        if ¬ (sContains "text/html" ctypeL || sContains "application/xhtml" ctypeL) = true then
          { website_score := 45, website_verdict := "basic_site"
            website_findings := "Non-HTML content-type: " ++
              (if ctypeL = "" then "unknown" else ctypeL)
            website_http_status := status, website_final_url := finalUrl
            website_checked_at := now }
        else auditHtml cfg body status finalUrl now

/-! ## Claim C9: link-aggregator hosts are terminal, no fetch -/

/-- C9: a URL whose normalized host equals, or is a subdomain of, one of the
fixed link-aggregator hosts yields the terminal `weak_link_in_bio` verdict
with score 20, for every fetch function alike — no network fetch is consulted. -/
theorem audit_weak_link_no_fetch (cfg : AuditConfig) (now : Int) (url : String)
    (hraw : pyStrip url ≠ "")
    (hweak : isWeakHost (hostOf (normalize_url (pyStrip url))) = true) :
    ∀ fetch, audit_website cfg fetch now url =
      { website_score := 20, website_verdict := "weak_link_in_bio"
        website_findings := "Link-in-bio page (Linktree/Carrd/Notion/etc). Strong upgrade opportunity."
        website_http_status := none, website_final_url := normalize_url (pyStrip url)
        website_checked_at := now } := by
  intro fetch
  simp only [audit_website]
  rw [if_neg hraw, if_pos hweak]

theorem audit_weak_link_no_fetch_witness :
    audit_website ⟨450000⟩ (fun _ => .failure "URLError") 123 "linktr.ee/someone" =
      { website_score := 20, website_verdict := "weak_link_in_bio"
        website_findings := "Link-in-bio page (Linktree/Carrd/Notion/etc). Strong upgrade opportunity."
        website_http_status := none
        website_final_url := normalize_url (pyStrip "linktr.ee/someone")
        website_checked_at := 123 } :=
  audit_weak_link_no_fetch ⟨450000⟩ 123 "linktr.ee/someone" (by decide) (by rfl)
    (fun _ => .failure "URLError")

/-! ## Claim C8: a well-equipped HTML page scores at least 79 and is good -/

/-- C8 counterexample: a truncated response refutes the claim as stated. The
page below satisfies every condition the claim names — successfully fetched
HTML, a mobile viewport meta, a `<title>` with at least 3 non-tag characters,
a `tel:` link, a booking/CTA phrase, no script tags and no parked phrase —
yet its body exceeds the configured byte cap (116 > 100 characters, and
audit.py line 101 reads `max_bytes + 1` bytes), so the truncation penalty of
audit.py lines 217-219 applies and the score is 50+10+5+8+6-6 = 73, below the
claimed lower bound 79. -/
def bodyTrunc : Str :=
  ("<meta name=\"viewport\"><title>acme plumbing</title>" ++
   "<a href=\"tel:+15551234\">call now</a>").data ++ List.replicate 30 'x'

set_option maxRecDepth 8000 in
theorem audit_good_site_truncated :
    hasViewport (lowerStr (bodyTrunc.take 100)) = true ∧
    hasTitleTag (lowerStr (bodyTrunc.take 100)) = true ∧
    hasTel (lowerStr (bodyTrunc.take 100)) = true ∧
    hasCTA (lowerStr (bodyTrunc.take 100)) = true ∧
    scriptCount (lowerStr (bodyTrunc.take 100)) = 0 ∧
    PARKED_PHRASES.all (fun p => !(isSubList p.data (lowerStr (bodyTrunc.take 100)))) = true ∧
    (audit_website ⟨100⟩
      (fun _ => .ok (some 200) "https://acme.example/" "text/html" bodyTrunc) 5
      "https://acme.example").website_score = 73 ∧
    (audit_website ⟨100⟩
      (fun _ => .ok (some 200) "https://acme.example/" "text/html" bodyTrunc) 5
      "https://acme.example").website_score < 79 := by
  decide

/-- C8 (amended): a successfully fetched HTML page (content type `text/html`
or `application/xhtml`) whose body fits within the configured byte cap (not
truncated — a truncated response additionally loses 6 points, see
`audit_good_site_truncated`), not weak-host and not parked, with a mobile
viewport meta, a `<title>` of at least 3 non-tag characters, a `tel:` link and
a booking/CTA phrase, and no script tags, scores at least
`50 + 10 + 5 + 8 + 6 = 79` after clamping — which exceeds 65, so the verdict
is `good_site`. -/
theorem audit_good_site (cfg : AuditConfig) (fetch : String → FetchOutcome)
    (now : Int) (url : String) (status : Option Int) (finalUrl : String)
    (ctype : String) (body htmlL : Str)
    (hraw : pyStrip url ≠ "")
    (hweak : isWeakHost (hostOf (normalize_url (pyStrip url))) = false)
    (hfetch : fetch (normalize_url (pyStrip url)) = .ok status finalUrl ctype body)
    (hct : (sContains "text/html" (lowerString ctype) ||
            sContains "application/xhtml" (lowerString ctype)) = true)
    (hlen : body.length ≤ cfg.maxBytes)
    (hhl : htmlL = lowerStr (body.take cfg.maxBytes))
    (hparked : PARKED_PHRASES.all (fun p => !(isSubList p.data htmlL)) = true)
    (hvp : hasViewport htmlL = true)
    (htl : hasTitleTag htmlL = true)
    (htel : hasTel htmlL = true)
    (hcta : hasCTA htmlL = true)
    (hsc : scriptCount htmlL = 0) :
    79 ≤ (audit_website cfg fetch now url).website_score ∧
    (audit_website cfg fetch now url).website_verdict = "good_site" := by
  subst hhl
  have hres : audit_website cfg fetch now url = auditHtml cfg body status finalUrl now := by
    simp only [audit_website]
    rw [if_neg hraw, hweak]
    simp only [Bool.false_eq_true, if_false]
    rw [hfetch]
    simp [hct]
  have htr : decide (cfg.maxBytes < body.length) = false := by
    simp [Nat.not_lt.mpr hlen]
  have hpark : (PARKED_PHRASES.any
      (fun p => isSubList p.data (lowerStr (body.take cfg.maxBytes)))) = false := by
    rw [List.any_eq_false]
    intro p hp
    have := (List.all_eq_true.mp hparked) p hp
    simpa using this
  have hhtml : auditHtml cfg body status finalUrl now =
      { website_score := auditScore (lowerStr (body.take cfg.maxBytes)) false
        website_verdict := auditVerdict (lowerStr (body.take cfg.maxBytes)) false
        website_findings := String.intercalate "; "
          (auditFindingsList (lowerStr (body.take cfg.maxBytes)) false)
        website_http_status := status, website_final_url := finalUrl
        website_checked_at := now } := by
    simp only [auditHtml, htr, hpark, Bool.false_eq_true, if_false]
  have hscore : 79 ≤ auditScoreRaw (lowerStr (body.take cfg.maxBytes)) false := by
    simp only [auditScoreRaw, hvp, htl, htel, hcta, hsc]
    norm_num
    split_ifs <;> omega
  have hclamp : 79 ≤ auditScore (lowerStr (body.take cfg.maxBytes)) false ∧
      65 < auditScore (lowerStr (body.take cfg.maxBytes)) false := by
    unfold auditScore
    omega
  rw [hres, hhtml]
  refine ⟨hclamp.1, ?_⟩
  unfold auditVerdict
  rw [if_neg (by omega), if_neg (by omega)]

/-- The concrete page used by the C8 witness. -/
def bodyC8 : Str :=
  ("<meta name=\"viewport\" content=\"width=device-width\">" ++
   "<title>acme plumbing</title><a href=\"tel:+15551234\">call now</a> free quote").data

def fetchC8 : String → FetchOutcome :=
  fun _ => .ok (some 200) "https://acme.example/" "text/html; charset=utf-8" bodyC8

set_option maxRecDepth 8000 in
theorem audit_good_site_witness :
    79 ≤ (audit_website ⟨450000⟩ fetchC8 5 "https://acme.example").website_score ∧
    (audit_website ⟨450000⟩ fetchC8 5 "https://acme.example").website_verdict =
      "good_site" :=
  audit_good_site ⟨450000⟩ fetchC8 5 "https://acme.example" (some 200)
    "https://acme.example/" "text/html; charset=utf-8" bodyC8
    (lowerStr (bodyC8.take 450000))
    (by decide) (by rfl) (by rfl) (by rfl) (by decide) (by rfl)
    (by decide) (by decide) (by decide) (by decide) (by decide) (by decide)

/-! ## The quality scoring engine `score_row` (scoring.py)

`score_row` depends on its input row only through the concatenated lowered
text, the token set, and the raw `website`/`phone` fields. The email regex of
line 174 runs on the unlowered text in the source, but its character classes
are case-symmetric, so matching on the lowered text is equivalent. -/

structure SRow where
  name : Str
  bio : Str
  location : Str
  website : Str
  phone : Str
  recent_post_snippet : Str
  signal_keywords_matched : Str
  profile_url : Str
  deriving DecidableEq

/-- `" ".join(...)`. -/
def joinSp (l : List Str) : Str := List.intercalate [' '] l

/-- `text_l = " ".join([name, bio, loc, website, phone, snippet, extra,
profile_url]).strip().lower()` (scoring.py lines 28-29). -/
def textOf (r : SRow) : Str :=
  lowerStr (trimChars (joinSp [r.name, r.bio, r.location, r.website, r.phone,
    r.recent_post_snippet, r.signal_keywords_matched, r.profile_url]))

/-- The character class of `re.findall(r"[a-z0-9@#\.\-\+]+", ...)`. -/
def isTokChar (c : Char) : Bool :=
  c.isLower || c.isDigit || c = '@' || c = '#' || c = '.' || c = '-' || c = '+'

/-- Worker for `_tokenize`: `cur` is the run of token characters read so far,
reversed; a non-token character closes the run. -/
def tokensCore : Str → Str → List Str
  | cur, [] => if cur = [] then [] else [cur.reverse]
  | cur, c :: cs =>
    if isTokChar c then tokensCore (c :: cur) cs
    else if cur = [] then tokensCore [] cs
    else cur.reverse :: tokensCore [] cs

/-- `_tokenize` (scoring.py lines 5-6): the maximal runs of characters from
the class `[a-z0-9@#.\-+]`. -/
def tokensOf (s : Str) : List Str := tokensCore [] s

def matchedPhrases (ps : List Str) (t : Str) : List Str :=
  ps.filter (fun p => isSubList p t)

def joinComma (l : List Str) : Str := List.intercalate ", ".data l

def booking_phrases : List Str :=
  (["taking new clients", "available this week", "dm to book", "dm to schedule",
    "book a job", "book now", "free quote", "get a quote", "estimate",
    "same day", "next day", "emergency", "call", "whatsapp", "text me",
    "message me", "appointment", "booking"] : List String).map String.data

def intentScore (t : Str) : Int :=
  if matchedPhrases booking_phrases t = [] then 0
  else min 44 (14 + 6 * min 5 ((matchedPhrases booking_phrases t).length : Int))

def intentReasons (t : Str) : List Str :=
  if matchedPhrases booking_phrases t = [] then []
  else ["intent:".data ++ joinComma ((matchedPhrases booking_phrases t).take 5)]

def pain_phrases : List Str :=
  (["lost leads", "missing leads", "missed calls", "too many dms",
    "need more calls", "need more leads", "need more bookings",
    "need a website", "my website is old", "website is outdated",
    "link in bio"] : List String).map String.data

def painScore (t : Str) : Int :=
  if matchedPhrases pain_phrases t = [] then 0
  else min 18 (8 + 3 * min 4 ((matchedPhrases pain_phrases t).length : Int))

def painReasons (t : Str) : List Str :=
  if matchedPhrases pain_phrases t = [] then []
  else ["pain:".data ++ joinComma ((matchedPhrases pain_phrases t).take 4)]

def service_tokens : List (Str × Int) :=
  ([("electrician", 32), ("electrical", 22), ("plumber", 32), ("plumbing", 22),
    ("handyman", 32), ("handy-man", 32), ("carpenter", 30), ("carpentry", 20),
    ("gardener", 30), ("gardening", 20), ("painter", 18), ("installer", 16),
    ("hvac", 18), ("roofing", 14), ("contractor", 12), ("landscaper", 16),
    ("landscaping", 12), ("cleaner", 12), ("cleaning", 10), ("flooring", 10),
    ("tiler", 10), ("locksmith", 12), ("mechanic", 12)] : List (String × Int)).map
    (fun kp => (kp.1.data, kp.2))

def svcMatched (tk : List Str) : List (Str × Int) :=
  service_tokens.filter (fun kp => decide (kp.1 ∈ tk))

def svcScore (tk : List Str) : Int := (svcMatched tk).foldl (fun acc kp => acc + kp.2) 0

def svcReasons (tk : List Str) : List Str :=
  (svcMatched tk).map (fun kp => "svc:".data ++ kp.1)

def hasLocalService (tk : List Str) : Bool := !(svcMatched tk).isEmpty

def solo_seller_tokens : List (Str × Int) :=
  ([("coach", 16), ("consultant", 14), ("therapist", 14), ("trainer", 12),
    ("mentor", 10), ("advisor", 10), ("copywriter", 8), ("designer", 4)] :
    List (String × Int)).map (fun kp => (kp.1.data, kp.2))

def roleMatched (tk : List Str) : List (Str × Int) :=
  solo_seller_tokens.filter (fun kp => decide (kp.1 ∈ tk))

def roleScore (tk : List Str) : Int := (roleMatched tk).foldl (fun acc kp => acc + kp.2) 0

def roleReasons (tk : List Str) : List Str :=
  (roleMatched tk).map (fun kp => "role:".data ++ kp.1)

def owner_tokens : List Str :=
  (["owner", "owneroperator", "selfemployed", "self-employed", "solo",
    "smallbusiness", "small business"] : List String).map String.data

def ownerHit (t : Str) (tk : List Str) : Bool :=
  owner_tokens.any (fun o => isSubList o t) || decide ("owner".data ∈ tk)

def ownerScore (t : Str) (tk : List Str) : Int := if ownerHit t tk then 8 else 0

def ownerReasons (t : Str) (tk : List Str) : List Str :=
  if ownerHit t tk then ["decision:solo".data] else []

def weakish_hosts : List Str :=
  (["linktr.ee", "carrd.co", "notion.site", "beacons.ai", "taplink.cc",
    "stan.store", "instagram.com", "facebook.com", "tiktok.com",
    "maps.google.", "g.page", "goo.gl/maps"] : List String).map String.data

def contact_words : List Str :=
  (["whatsapp", "call", "dm", "book", "quote"] : List String).map String.data

inductive WState where
  | wnone
  | wweak
  | wstrong
  deriving DecidableEq

/-- The mutually exclusive website-state classification
(scoring.py lines 134-156). -/
def websiteState (w : Str) : WState :=
  if trimChars w = [] then .wnone
  else if weakish_hosts.any (fun h => isSubList h (lowerStr w)) then .wweak
  else .wstrong

def webScore (w t : Str) : Int :=
  if trimChars w = [] then
    (if contact_words.any (fun x => isSubList x t) then 16 else 10)
  else if weakish_hosts.any (fun h => isSubList h (lowerStr w)) then 16 else 3

def webReasons (w t : Str) : List Str :=
  if trimChars w = [] then
    (if contact_words.any (fun x => isSubList x t) then ["no_website_but_contact".data]
     else ["no_website".data])
  else if weakish_hosts.any (fun h => isSubList h (lowerStr w)) then
    ["weak_link_in_bio".data]
  else ["has_website".data]

/-- Lines 158-162: compounding bonus for local services with weak/no website. -/
def fitScore (hasLocal : Bool) (w : Str) : Int :=
  if hasLocal ∧ (websiteState w = .wnone ∨ websiteState w = .wweak) then
    (if websiteState w = .wnone then 22 else 18)
  else 0

def fitReasons (hasLocal : Bool) (w : Str) : List Str :=
  if hasLocal ∧ (websiteState w = .wnone ∨ websiteState w = .wweak) then
    ["fit:local_service_weak_web".data]
  else []

def whatsappHit (t : Str) (tk : List Str) : Bool :=
  decide ("whatsapp".data ∈ tk) || isSubList "wa.me".data t

def phoneHit (ph : Str) : Bool := !(trimChars ph).isEmpty

def telHit (t : Str) : Bool := isSubList "tel:".data t

/-- Character classes of the email regex
`([a-zA-Z0-9._%+\-]+@[a-zA-Z0-9.\-]+\.[a-zA-Z]{2,})`. -/
def isLocalChar (c : Char) : Bool :=
  c.isAlpha || c.isDigit || c = '.' || c = '_' || c = '%' || c = '+' || c = '-'

def isDomChar (c : Char) : Bool := c.isAlpha || c.isDigit || c = '.' || c = '-'

def emailTld (u : Str) : Bool := decide (2 ≤ (u.takeWhile Char.isAlpha).length)

/-- After at least one domain character: scan for a `.` followed by a ≥2-letter
TLD, crossing only domain characters. -/
def emailDotTail : Str → Bool
  | [] => false
  | c :: rest => (c = '.' && emailTld rest) || (isDomChar c && emailDotTail rest)

def emailAfterAt : Str → Bool
  | [] => false
  | c :: rest => isDomChar c && emailDotTail rest

/-- A match of the email regex starting at this position: a nonempty run of
local-part characters, then `@`, then domain, dot and TLD. -/
def startsEmail (t : Str) : Bool :=
  let loc := t.takeWhile isLocalChar
  !loc.isEmpty &&
    (match t.drop loc.length with
     | c :: rest => c = '@' && emailAfterAt rest
     | [] => false)

def hasEmailB (t : Str) : Bool := t.tails.any startsEmail

def negative_tokens : List (Str × Int) :=
  ([("developer", -22), ("engineer", -18), ("software", -14), ("github", -22),
    ("agency", -16), ("webdev", -14), ("freelance", -6), ("forhire", -10),
    ("buildinginpublic", -14), ("buildinpublic", -14), ("webflow", -16),
    ("wordpress", -10), ("wix", -10), ("squarespace", -10), ("framer", -12),
    ("bubble", -12), ("nocode", -12), ("no-code", -12), ("indiehackers", -14),
    ("indiehacker", -14), ("growthhacker", -14), ("prompt", -10)] :
    List (String × Int)).map (fun kp => (kp.1.data, kp.2))

def negMatched (tk : List Str) : List (Str × Int) :=
  negative_tokens.filter (fun kp => decide (kp.1 ∈ tk))

def negScore (tk : List Str) : Int := (negMatched tk).foldl (fun acc kp => acc + kp.2) 0

def negReasons (tk : List Str) : List Str :=
  (negMatched tk).map (fun kp => "neg:".data ++ kp.1)

def committee_phrases : List Str :=
  (["marketing team", "head of", "director", "vp ", "cmo", "manager",
    "procurement", "rfp", "enterprise", "stakeholders", "proposal"] :
    List String).map String.data

def committeeScore (t : Str) : Int :=
  if matchedPhrases committee_phrases t = [] then 0
  else -(min 26 (12 + 4 * min 4 ((matchedPhrases committee_phrases t).length : Int)))

def committeeReasons (t : Str) : List Str :=
  if matchedPhrases committee_phrases t = [] then [] else ["neg:committee".data]

/-- The accumulated score before the final clamp, as the sum of the rule
contributions of scoring.py lines 33-225 (the source accumulates them in
sequence; addition order does not change the sum). -/
def rawScore (r : SRow) : Int :=
  intentScore (textOf r) + painScore (textOf r) + svcScore (tokensOf (textOf r)) +
  roleScore (tokensOf (textOf r)) + ownerScore (textOf r) (tokensOf (textOf r)) +
  webScore r.website (textOf r) +
  fitScore (hasLocalService (tokensOf (textOf r))) r.website +
  (if whatsappHit (textOf r) (tokensOf (textOf r)) then 18 else 0) +
  (if phoneHit r.phone then 14 else 0) +
  (if telHit (textOf r) then 8 else 0) +
  (if hasEmailB (textOf r) then 6 else 0) +
  negScore (tokensOf (textOf r)) + committeeScore (textOf r)

/-- The reason codes in the order the rules fire (scoring.py top to bottom). -/
def reasonsOf (r : SRow) : List Str :=
  intentReasons (textOf r) ++ painReasons (textOf r) ++
  svcReasons (tokensOf (textOf r)) ++ roleReasons (tokensOf (textOf r)) ++
  ownerReasons (textOf r) (tokensOf (textOf r)) ++
  webReasons r.website (textOf r) ++
  fitReasons (hasLocalService (tokensOf (textOf r))) r.website ++
  ((if whatsappHit (textOf r) (tokensOf (textOf r)) then ["contact:whatsapp".data] else []) ++
   (if phoneHit r.phone then ["contact:phone".data] else []) ++
   (if telHit (textOf r) then ["contact:phone_link".data] else []) ++
   (if hasEmailB (textOf r) then ["contact:email".data] else [])) ++
  negReasons (tokensOf (textOf r)) ++ committeeReasons (textOf r)

def clampScore (x : Int) : Int := max 0 (min 100 x)

/-- `score_row` (scoring.py lines 9-228). -/
def score_row (r : SRow) : Int × List Str := (clampScore (rawScore r), reasonsOf r)

/-! ## Claim C4: purity, determinism and the score range -/

/-- C4: `score_row` is a function of its input row alone — equal inputs give
equal `(score, reasons)` — and the returned score always lies in `[0, 100]`. -/
theorem score_row_pure_bounded (r r' : SRow) (h : r = r') :
    score_row r = score_row r' ∧ 0 ≤ (score_row r).1 ∧ (score_row r).1 ≤ 100 := by
  subst h
  refine ⟨rfl, ?_, ?_⟩
  · exact le_max_left 0 _
  · exact max_le (by norm_num) (min_le_left _ _)

def srowEmpty : SRow := ⟨[], [], [], [], [], [], [], []⟩

theorem score_row_pure_bounded_witness :
    score_row srowEmpty = score_row srowEmpty ∧
    0 ≤ (score_row srowEmpty).1 ∧ (score_row srowEmpty).1 ≤ 100 :=
  score_row_pure_bounded srowEmpty srowEmpty rfl

/-! ## Claim C5: reason codes carry a category tag, in firing order -/

def tagPrefixes : List Str :=
  (["intent:", "pain:", "svc:", "role:", "decision:", "contact:", "neg:",
    "fit:"] : List String).map String.data

/-- C5 counterexample: the website-state reason codes carry no category tag.
The empty row yields the single reason `no_website`, which no tag prefixes. -/
theorem score_reason_without_category_tag :
    ∃ s ∈ (score_row srowEmpty).2, ∀ tag ∈ tagPrefixes, ¬ tag <+: s := by
  decide

def websiteCodes : List Str :=
  (["no_website_but_contact", "no_website", "weak_link_in_bio",
    "has_website"] : List String).map String.data

/-- Category index of a reason code, following the order the rule groups fire:
intent, pain, svc, role, decision, website-state, fit, contact, neg. `99`
means the reason belongs to no group. -/
def catOf (s : Str) : Nat :=
  if "intent:".data <+: s then 0
  else if "pain:".data <+: s then 1
  else if "svc:".data <+: s then 2
  else if "role:".data <+: s then 3
  else if "decision:".data <+: s then 4
  else if s ∈ websiteCodes then 5
  else if "fit:".data <+: s then 6
  else if "contact:".data <+: s then 7
  else if "neg:".data <+: s then 8
  else 99

theorem not_prefix_cons (c d : Char) (p q : Str) (h : c ≠ d) :
    ¬ (c :: p <+: d :: q) :=
  fun hp => h (List.cons_prefix_cons.mp hp).1

theorem catOf_intent (x : Str) : catOf ("intent:".data ++ x) = 0 := by
  unfold catOf
  rw [if_pos (List.prefix_append _ _)]

/-- Two lists neither of which prefixes the other stay incomparable after
extending the second on the right. -/
theorem not_prefix_append (p q x : Str) (h1 : ¬ p <+: q) (h2 : ¬ q <+: p) :
    ¬ p <+: q ++ x :=
  fun hp => (List.prefix_or_prefix_of_prefix hp (List.prefix_append q x)).elim h1 h2

theorem catOf_pain (x : Str) : catOf ("pain:".data ++ x) = 1 := by
  unfold catOf
  rw [if_neg (not_prefix_append _ _ _ (by decide) (by decide)),
      if_pos (List.prefix_append _ _)]

theorem sorted_map_const (A : List Str) (a : Nat) (hA : ∀ s ∈ A, catOf s = a) :
    (A.map catOf).Pairwise (fun x y => x ≤ y) := by
  induction A with
  | nil => simp
  | cons x tl ih =>
    simp only [List.map_cons]
    rw [List.pairwise_cons]
    refine ⟨?_, ih (fun s hs => hA s (List.mem_cons_of_mem _ hs))⟩
    intro b hb
    obtain ⟨t, ht, rfl⟩ := List.mem_map.mp hb
    rw [hA x (List.mem_cons_self _ _), hA t (List.mem_cons_of_mem _ ht)]

theorem sorted_cat_append (A rest : List Str) (a : Nat)
    (hA : ∀ s ∈ A, catOf s = a)
    (hrest : (rest.map catOf).Pairwise (fun x y => x ≤ y))
    (hlb : ∀ s ∈ rest, a ≤ catOf s) :
    ((A ++ rest).map catOf).Pairwise (fun x y => x ≤ y) ∧
      ∀ s ∈ A ++ rest, a ≤ catOf s := by
  constructor
  · rw [List.map_append, List.pairwise_append]
    refine ⟨sorted_map_const A a hA, hrest, ?_⟩
    intro x hx y hy
    obtain ⟨s, hs, rfl⟩ := List.mem_map.mp hx
    obtain ⟨t, ht, rfl⟩ := List.mem_map.mp hy
    rw [hA s hs]
    exact hlb t ht
  · intro s hs
    rcases List.mem_append.mp hs with hs | hs
    · exact le_of_eq (hA s hs).symm
    · exact hlb s hs

theorem mem_if_singleton {c : Prop} [Decidable c] {x s : Str}
    (h : s ∈ (if c then [x] else ([] : List Str))) : s = x := by
  by_cases hc : c
  · simpa [hc] using h
  · simp [hc] at h

/-- C5 (amended): every reason code is either prefixed by one of the eight
category tags or is one of the four untagged website-state codes
(`catOf s < 9`), and the reasons appear grouped in rule-firing order: the
category indices along the list are monotonically non-decreasing. -/
theorem score_reasons_tagged_and_ordered (r : SRow) :
    (∀ s ∈ (score_row r).2, catOf s < 9) ∧
    ((score_row r).2.map catOf).Pairwise (fun x y => x ≤ y) := by
  have hI : ∀ s ∈ intentReasons (textOf r), catOf s = 0 := by
    intro s hs
    unfold intentReasons at hs
    by_cases hc : matchedPhrases booking_phrases (textOf r) = []
    · simp [hc] at hs
    · simp only [hc, if_neg, if_false, List.mem_singleton] at hs
      subst hs
      exact catOf_intent _
  have hP : ∀ s ∈ painReasons (textOf r), catOf s = 1 := by
    intro s hs
    unfold painReasons at hs
    by_cases hc : matchedPhrases pain_phrases (textOf r) = []
    · simp [hc] at hs
    · simp only [hc, if_neg, if_false, List.mem_singleton] at hs
      subst hs
      exact catOf_pain _
  have hS : ∀ s ∈ svcReasons (tokensOf (textOf r)), catOf s = 2 := by
    intro s hs
    obtain ⟨kp, hkp, rfl⟩ := List.mem_map.mp hs
    exact (by decide : ∀ kp ∈ service_tokens, catOf ("svc:".data ++ kp.1) = 2)
      kp (List.mem_of_mem_filter hkp)
  have hR : ∀ s ∈ roleReasons (tokensOf (textOf r)), catOf s = 3 := by
    intro s hs
    obtain ⟨kp, hkp, rfl⟩ := List.mem_map.mp hs
    exact (by decide : ∀ kp ∈ solo_seller_tokens, catOf ("role:".data ++ kp.1) = 3)
      kp (List.mem_of_mem_filter hkp)
  have hO : ∀ s ∈ ownerReasons (textOf r) (tokensOf (textOf r)), catOf s = 4 := by
    intro s hs
    unfold ownerReasons at hs
    rw [mem_if_singleton hs]
    decide
  have hW : ∀ s ∈ webReasons r.website (textOf r), catOf s = 5 := by
    intro s hs
    unfold webReasons at hs
    by_cases h1 : trimChars r.website = []
    · rw [if_pos h1] at hs
      by_cases h2 : (contact_words.any (fun x => isSubList x (textOf r))) = true
      · simp only [h2, if_true, List.mem_singleton] at hs
        subst hs; decide
      · simp only [h2, Bool.false_eq_true, if_false, List.mem_singleton] at hs
        subst hs; decide
    · rw [if_neg h1] at hs
      by_cases h2 : (weakish_hosts.any (fun h => isSubList h (lowerStr r.website))) = true
      · simp only [h2, if_true, List.mem_singleton] at hs
        subst hs; decide
      · simp only [h2, Bool.false_eq_true, if_false, List.mem_singleton] at hs
        subst hs; decide
  have hF : ∀ s ∈ fitReasons (hasLocalService (tokensOf (textOf r))) r.website,
      catOf s = 6 := by
    intro s hs
    unfold fitReasons at hs
    rw [mem_if_singleton hs]
    decide
  have hC1 : ∀ s ∈ (if whatsappHit (textOf r) (tokensOf (textOf r)) then
      ["contact:whatsapp".data] else []), catOf s = 7 := by
    intro s hs; rw [mem_if_singleton hs]; decide
  have hC2 : ∀ s ∈ (if phoneHit r.phone then ["contact:phone".data] else []),
      catOf s = 7 := by
    intro s hs; rw [mem_if_singleton hs]; decide
  have hC3 : ∀ s ∈ (if telHit (textOf r) then ["contact:phone_link".data] else []),
      catOf s = 7 := by
    intro s hs; rw [mem_if_singleton hs]; decide
  have hC4 : ∀ s ∈ (if hasEmailB (textOf r) then ["contact:email".data] else []),
      catOf s = 7 := by
    intro s hs; rw [mem_if_singleton hs]; decide
  have hN : ∀ s ∈ negReasons (tokensOf (textOf r)), catOf s = 8 := by
    intro s hs
    obtain ⟨kp, hkp, rfl⟩ := List.mem_map.mp hs
    exact (by decide : ∀ kp ∈ negative_tokens, catOf ("neg:".data ++ kp.1) = 8)
      kp (List.mem_of_mem_filter hkp)
  have hCm : ∀ s ∈ committeeReasons (textOf r), catOf s = 8 := by
    intro s hs
    unfold committeeReasons at hs
    by_cases hc : matchedPhrases committee_phrases (textOf r) = []
    · simp [hc] at hs
    · simp only [hc, if_neg, if_false, List.mem_singleton] at hs
      subst hs; decide
  -- assemble the chain from the right
  have s10 : ((committeeReasons (textOf r)).map catOf).Pairwise (fun x y => x ≤ y) :=
    sorted_map_const _ 8 hCm
  have b10 : ∀ s ∈ committeeReasons (textOf r), 8 ≤ catOf s :=
    fun s hs => le_of_eq (hCm s hs).symm
  obtain ⟨s9, b9⟩ := sorted_cat_append _ _ 8 hN s10 b10
  obtain ⟨s8, b8⟩ := sorted_cat_append _ _ 7 hC4 s9
    (fun s hs => le_trans (by norm_num) (b9 s hs))
  obtain ⟨s7, b7⟩ := sorted_cat_append _ _ 7 hC3 s8 b8
  obtain ⟨s6, b6⟩ := sorted_cat_append _ _ 7 hC2 s7 b7
  obtain ⟨s5, b5⟩ := sorted_cat_append _ _ 7 hC1 s6 b6
  obtain ⟨s4, b4⟩ := sorted_cat_append _ _ 6 hF s5
    (fun s hs => le_trans (by norm_num) (b5 s hs))
  obtain ⟨s3, b3⟩ := sorted_cat_append _ _ 5 hW s4
    (fun s hs => le_trans (by norm_num) (b4 s hs))
  obtain ⟨s2, b2⟩ := sorted_cat_append _ _ 4 hO s3
    (fun s hs => le_trans (by norm_num) (b3 s hs))
  obtain ⟨s1, b1⟩ := sorted_cat_append _ _ 3 hR s2
    (fun s hs => le_trans (by norm_num) (b2 s hs))
  obtain ⟨s0, b0⟩ := sorted_cat_append _ _ 2 hS s1
    (fun s hs => le_trans (by norm_num) (b1 s hs))
  obtain ⟨sm1, bm1⟩ := sorted_cat_append _ _ 1 hP s0
    (fun s hs => le_trans (by norm_num) (b0 s hs))
  obtain ⟨sm2, bm2⟩ := sorted_cat_append _ _ 0 hI sm1
    (fun s hs => le_trans (by norm_num) (bm1 s hs))
  constructor
  · intro s hs
    show catOf s < 9
    have hs' : s ∈ intentReasons (textOf r) ++ (painReasons (textOf r) ++
        (svcReasons (tokensOf (textOf r)) ++ (roleReasons (tokensOf (textOf r)) ++
        (ownerReasons (textOf r) (tokensOf (textOf r)) ++
        (webReasons r.website (textOf r) ++
        (fitReasons (hasLocalService (tokensOf (textOf r))) r.website ++
        ((if whatsappHit (textOf r) (tokensOf (textOf r)) then
            ["contact:whatsapp".data] else []) ++
        ((if phoneHit r.phone then ["contact:phone".data] else []) ++
        ((if telHit (textOf r) then ["contact:phone_link".data] else []) ++
        ((if hasEmailB (textOf r) then ["contact:email".data] else []) ++
        (negReasons (tokensOf (textOf r)) ++
          committeeReasons (textOf r)))))))))))) := by
      have : (score_row r).2 = reasonsOf r := rfl
      rw [this] at hs
      unfold reasonsOf at hs
      simpa only [List.append_assoc] using hs
    simp only [List.mem_append] at hs'
    rcases hs' with hs' | hs' | hs' | hs' | hs' | hs' | hs' | hs' | hs' | hs' | hs' |
      hs' | hs'
    · rw [hI s hs']; norm_num
    · rw [hP s hs']; norm_num
    · rw [hS s hs']; norm_num
    · rw [hR s hs']; norm_num
    · rw [hO s hs']; norm_num
    · rw [hW s hs']; norm_num
    · rw [hF s hs']; norm_num
    · rw [hC1 s hs']; norm_num
    · rw [hC2 s hs']; norm_num
    · rw [hC3 s hs']; norm_num
    · rw [hC4 s hs']; norm_num
    · rw [hN s hs']; norm_num
    · rw [hCm s hs']; norm_num
  · show ((reasonsOf r).map catOf).Pairwise (fun x y => x ≤ y)
    unfold reasonsOf
    simpa only [List.append_assoc] using sm2

/-! ## Claim C6: adding a WhatsApp mention

Infrastructure: how each matcher behaves when the text is extended on the
right by spaces followed by the word `whatsapp`. -/

theorem isSubList_iff {p s : Str} : isSubList p s = true ↔ p <:+: s := by
  unfold isSubList
  rw [List.any_eq_true]
  constructor
  · rintro ⟨t, ht, hpp⟩
    exact List.infix_iff_prefix_suffix.mpr
      ⟨t, List.isPrefixOf_iff_prefix.mp hpp, (List.mem_tails _ _).mp ht⟩
  · intro h
    obtain ⟨t, hpre, hsuf⟩ := List.infix_iff_prefix_suffix.mp h
    exact ⟨t, (List.mem_tails _ _).mpr hsuf, List.isPrefixOf_iff_prefix.mpr hpre⟩

theorem isSubList_append_mono {p T : Str} (X : Str) (h : isSubList p T = true) :
    isSubList p (T ++ X) = true := by
  rw [isSubList_iff] at h ⊢
  exact h.trans (List.prefix_append T X).isInfix

/-- Tokenizing across a non-token character splits into independent halves. -/
theorem tokensCore_append_break (c : Char) (hc : isTokChar c = false) (B : Str) :
    ∀ (A cur : Str), tokensCore cur (A ++ c :: B) = tokensCore cur A ++ tokensCore [] B := by
  intro A
  induction A with
  | nil =>
    intro cur
    by_cases hcur : cur = []
    · subst hcur
      simp [tokensCore, hc]
    · simp [tokensCore, hc, hcur]
  | cons a A ih =>
    intro cur
    simp only [List.cons_append]
    by_cases ha : isTokChar a = true
    · simp only [tokensCore, ha, if_true]
      exact ih (a :: cur)
    · by_cases hcur : cur = []
      · subst hcur
        simp only [tokensCore, ha, Bool.false_eq_true, if_false, if_pos rfl]
        exact ih []
      · simp only [tokensCore, ha, Bool.false_eq_true, if_false, if_neg hcur,
          List.cons_append]
        rw [ih []]

theorem tokensCore_spaces_whatsapp (S : Str) (hS : ∀ c ∈ S, c = ' ') :
    tokensCore [] (S ++ "whatsapp".data) = ["whatsapp".data] := by
  induction S with
  | nil => decide
  | cons c S ih =>
    have hc := hS c (List.mem_cons_self _ _)
    subst hc
    have h1 : tokensCore [] (' ' :: (S ++ "whatsapp".data)) =
        tokensCore [] (S ++ "whatsapp".data) := rfl
    simp only [List.cons_append, h1]
    exact ih (fun c hc => hS c (List.mem_cons_of_mem _ hc))

theorem tokensOf_append_pad (T pad : Str) (hpad : ∀ c ∈ pad, c = ' ') :
    tokensOf (T ++ pad ++ ' ' :: "whatsapp".data) =
      tokensOf T ++ ["whatsapp".data] := by
  cases pad with
  | nil =>
    show tokensCore [] (T ++ [] ++ ' ' :: _) = _
    rw [List.append_nil]
    rw [tokensCore_append_break ' ' (by decide) _ T []]
    rw [show tokensCore [] "whatsapp".data = ["whatsapp".data] from by decide]
    rfl
  | cons p0 pad' =>
    have h0 := hpad p0 (List.mem_cons_self _ _)
    subst h0
    have heq : T ++ (' ' :: pad') ++ ' ' :: "whatsapp".data =
        T ++ ' ' :: (pad' ++ ' ' :: "whatsapp".data) := by simp
    show tokensCore [] (T ++ (' ' :: pad') ++ ' ' :: _) = _
    rw [heq, tokensCore_append_break ' ' (by decide) _ T []]
    have heq2 : pad' ++ ' ' :: "whatsapp".data = (pad' ++ [' ']) ++ "whatsapp".data := by
      simp
    rw [heq2, tokensCore_spaces_whatsapp (pad' ++ [' '])
      (by intro c hc
          rcases List.mem_append.mp hc with hc | hc
          · exact hpad c (List.mem_cons_of_mem _ hc)
          · simpa using hc)]
    rfl

theorem prefix_append_cases {q A B : Str} (h : q <+: A ++ B) :
    q <+: A ∨ ∃ q2, q = A ++ q2 ∧ q2 <+: B := by
  obtain ⟨t, ht⟩ := h
  rcases List.append_eq_append_iff.mp ht with ⟨a', h1, _⟩ | ⟨c', h1, h2⟩
  · exact Or.inl ⟨a', h1.symm⟩
  · exact Or.inr ⟨c', h1, ⟨t, h2.symm⟩⟩

theorem infix_append_cases {p A B : Str} (h : p <:+: A ++ B) :
    p <:+: A ∨ p <:+: B ∨
      ∃ p1 p2, p = p1 ++ p2 ∧ p1 ≠ [] ∧ p2 ≠ [] ∧ p1 <:+ A ∧ p2 <+: B := by
  obtain ⟨s, t, hst⟩ := h
  have hst' : s ++ (p ++ t) = A ++ B := by
    rw [← List.append_assoc]; exact hst
  rcases List.append_eq_append_iff.mp hst' with ⟨a', h1, h2⟩ | ⟨c', h1, h2⟩
  · rcases List.append_eq_append_iff.mp h2 with ⟨w, hw1, _⟩ | ⟨w, hw1, hw2⟩
    · refine Or.inl ⟨s, w, ?_⟩
      rw [h1, hw1, List.append_assoc]
    · by_cases ha : a' = []
      · subst ha
        simp only [List.nil_append] at hw1
        subst hw1
        exact Or.inr (Or.inl ⟨[], t, by simp [hw2]⟩)
      · by_cases hw : w = []
        · subst hw
          rw [List.append_nil] at hw1
          subst hw1
          exact Or.inl ⟨s, [], by simp [h1]⟩
        · exact Or.inr (Or.inr ⟨a', w, hw1, ha, hw, ⟨s, h1.symm⟩, ⟨t, hw2.symm⟩⟩)
  · exact Or.inr (Or.inl ⟨c', t, by rw [List.append_assoc]; exact h2.symm⟩)

theorem getLast?_space {p : Str} (hp : p ≠ []) (hall : ∀ c ∈ p, c = ' ') :
    p.getLast? = some ' ' := by
  cases hg : p.getLast? with
  | none =>
    have := List.getLast?_isSome (l := p)
    rw [hg] at this
    simp only [Option.isSome_none, Bool.false_eq_true, false_iff, not_not] at this
    exact absurd this hp
  | some c => rw [hall c (List.mem_of_getLast?_eq_some hg)]

theorem getLast?_append_ne {p1 p2 : Str} (h : p2 ≠ []) :
    (p1 ++ p2).getLast? = p2.getLast? := by
  rw [List.getLast?_append]
  cases hg : p2.getLast? with
  | none =>
    have := List.getLast?_isSome (l := p2)
    rw [hg] at this
    simp at this
    exact absurd this h
  | some c => rfl

/-- Extending a text by spaces and then `W` cannot create a new occurrence of
a phrase `p` that does not end in a space, has no nonempty suffix that
prefixes `W`, and does not occur inside `W`. -/
theorem no_new_infix_pad (p T W PAD : Str)
    (hp : p ≠ [])
    (hlast : p.getLast? ≠ some ' ')
    (hW : ¬ p <:+: W)
    (hsufpre : ∀ q ∈ p.tails, q <+: W → q = [])
    (hPAD : ∀ c ∈ PAD, c = ' ') (hPADne : PAD ≠ [])
    (h : p <:+: T ++ (PAD ++ W)) : p <:+: T := by
  rcases infix_append_cases h with h1 | h1 | ⟨p1, p2, rfl, _, hp2, hp1s, hp2p⟩
  · exact h1
  · rcases infix_append_cases h1 with h2 | h2 | ⟨p1, p2, rfl, _, hp2, hp1s, hp2p⟩
    · exact absurd (getLast?_space hp
        (fun c hc => hPAD c (h2.sublist.subset hc))) hlast
    · exact absurd h2 hW
    · have hmem : p2 ∈ (p1 ++ p2).tails := (List.mem_tails _ _).mpr ⟨p1, rfl⟩
      exact absurd (hsufpre p2 hmem hp2p) hp2
  · rcases prefix_append_cases hp2p with h2 | ⟨q2, rfl, hq2⟩
    · have hall : ∀ c ∈ p2, c = ' ' := fun c hc => hPAD c (h2.sublist.subset hc)
      have hsp := getLast?_space hp2 hall
      rw [← getLast?_append_ne hp2] at hsp
      exact absurd hsp hlast
    · by_cases hq : q2 = []
      · subst hq
        have hne : PAD ++ ([] : Str) ≠ [] := by simpa using hPADne
        have hall : ∀ c ∈ PAD ++ ([] : Str), c = ' ' := by simpa using hPAD
        have hsp := getLast?_space hne hall
        rw [← getLast?_append_ne hne] at hsp
        exact absurd hsp hlast
      · have hmem : q2 ∈ (p1 ++ (PAD ++ q2)).tails :=
          (List.mem_tails _ _).mpr ⟨p1 ++ PAD, by rw [List.append_assoc]⟩
        exact absurd (hsufpre q2 hmem hq2) hq

theorem filter_length_mono {α : Type} {l : List α} {p q : α → Bool}
    (h : ∀ a ∈ l, p a = true → q a = true) :
    (l.filter p).length ≤ (l.filter q).length := by
  induction l with
  | nil => simp
  | cons a tl ih =>
    have ih' := ih (fun x hx => h x (List.mem_cons_of_mem _ hx))
    by_cases hp : p a = true
    · have hq := h a (List.mem_cons_self _ _) hp
      simp only [List.filter_cons, hp, hq, if_true, List.length_cons]
      exact Nat.succ_le_succ ih'
    · simp only [List.filter_cons, hp, if_false]
      by_cases hq : q a = true
      · simp only [hq, if_true, List.length_cons]
        exact Nat.le_succ_of_le ih'
      · simp only [hq, if_false]
        exact ih'

theorem takeWhile_length_mono (p : Char → Bool) (a X : Str) :
    (a.takeWhile p).length ≤ ((a ++ X).takeWhile p).length := by
  rw [List.takeWhile_append]
  by_cases hh : (a.takeWhile p).length = a.length
  · rw [if_pos hh, List.length_append]
    omega
  · rw [if_neg hh]

theorem emailDotTail_append (X : Str) :
    ∀ t, emailDotTail t = true → emailDotTail (t ++ X) = true := by
  intro t
  induction t with
  | nil => intro h; simp [emailDotTail] at h
  | cons c rest ih =>
    intro h
    simp only [emailDotTail, List.cons_append] at h ⊢
    rcases Bool.or_eq_true_iff.mp h with h1 | h1
    · obtain ⟨hc, ht⟩ := Bool.and_eq_true_iff.mp h1
      apply Bool.or_eq_true_iff.mpr
      left
      apply Bool.and_eq_true_iff.mpr
      refine ⟨hc, ?_⟩
      unfold emailTld at ht ⊢
      rw [decide_eq_true_iff] at ht ⊢
      exact le_trans ht (takeWhile_length_mono _ rest X)
    · obtain ⟨hc, ht⟩ := Bool.and_eq_true_iff.mp h1
      exact Bool.or_eq_true_iff.mpr (Or.inr (Bool.and_eq_true_iff.mpr ⟨hc, ih ht⟩))

theorem emailAfterAt_append (X t : Str) (h : emailAfterAt t = true) :
    emailAfterAt (t ++ X) = true := by
  cases t with
  | nil => simp [emailAfterAt] at h
  | cons c rest =>
    simp only [emailAfterAt, List.cons_append] at h ⊢
    obtain ⟨h1, h2⟩ := Bool.and_eq_true_iff.mp h
    exact Bool.and_eq_true_iff.mpr ⟨h1, emailDotTail_append X rest h2⟩

theorem startsEmail_append (X t : Str) (h : startsEmail t = true) :
    startsEmail (t ++ X) = true := by
  unfold startsEmail at h ⊢
  obtain ⟨h1, h2⟩ := Bool.and_eq_true_iff.mp h
  cases hdrop : t.drop (t.takeWhile isLocalChar).length with
  | nil => rw [hdrop] at h2; simp at h2
  | cons c rest =>
    rw [hdrop] at h2
    obtain ⟨hc, hrest⟩ := Bool.and_eq_true_iff.mp h2
    have hstop : (t.takeWhile isLocalChar).length ≠ t.length := by
      intro habs
      have hnil : t.drop (t.takeWhile isLocalChar).length = [] := by
        rw [habs, List.drop_length]
      rw [hdrop] at hnil
      simp at hnil
    have htw : (t ++ X).takeWhile isLocalChar = t.takeWhile isLocalChar := by
      rw [List.takeWhile_append, if_neg hstop]
    rw [htw]
    refine Bool.and_eq_true_iff.mpr ⟨h1, ?_⟩
    have hle : (t.takeWhile isLocalChar).length ≤ t.length :=
      (List.takeWhile_prefix _).length_le
    have hdrop' : (t ++ X).drop (t.takeWhile isLocalChar).length =
        c :: (rest ++ X) := by
      rw [List.drop_append_of_le_length hle, hdrop]
      rfl
    rw [hdrop']
    exact Bool.and_eq_true_iff.mpr ⟨hc, emailAfterAt_append X rest hrest⟩

theorem hasEmailB_append_mono (X : Str) {T : Str} (h : hasEmailB T = true) :
    hasEmailB (T ++ X) = true := by
  unfold hasEmailB at h ⊢
  rw [List.any_eq_true] at h ⊢
  obtain ⟨t, ht, hst⟩ := h
  obtain ⟨s, hs⟩ := (List.mem_tails _ _).mp ht
  exact ⟨t ++ X, (List.mem_tails _ _).mpr ⟨s, by rw [← List.append_assoc, hs]⟩,
    startsEmail_append X t hst⟩

/-- C6 counterexample: the two rows differ only in that the second one
additionally contains a WhatsApp mention at the end of its text, yet its score
is strictly lower (62 versus 78): the appended ` whatsapp` completes the
committee phrase `vp ` after the trailing `mvp`, firing the committee penalty,
while the intent bonus is already capped at five distinct matches. -/
theorem score_whatsapp_can_drop :
    (score_row { name := "call estimate emergency appointment booking wa.me mvp whatsapp".data,
                 bio := [], location := [], website := [], phone := [],
                 recent_post_snippet := [], signal_keywords_matched := [],
                 profile_url := [] }).1 <
    (score_row { name := "call estimate emergency appointment booking wa.me mvp".data,
                 bio := [], location := [], website := [], phone := [],
                 recent_post_snippet := [], signal_keywords_matched := [],
                 profile_url := [] }).1 := by
  decide

/-- C6 (amended): appending a WhatsApp mention to the end of a row's text —
website and phone unchanged — never lowers the score, provided it does not
newly complete the committee phrase `"vp "`, the one negative rule whose match
set such a suffix can enlarge. -/
theorem score_whatsapp_monotone (r r' : SRow)
    (hw : r'.website = r.website) (hph : r'.phone = r.phone)
    (htext : ∃ pad : Str, (∀ c ∈ pad, c = ' ') ∧
      textOf r' = textOf r ++ pad ++ ' ' :: "whatsapp".data)
    (hvp : isSubList "vp ".data (textOf r') = true →
      isSubList "vp ".data (textOf r) = true) :
    (score_row r).1 ≤ (score_row r').1 := by
  obtain ⟨pad, hpad, hT⟩ := htext
  have hT2 : textOf r' = textOf r ++ ((pad ++ [' ']) ++ "whatsapp".data) := by
    rw [hT]; simp [List.append_assoc]
  have hPADsp : ∀ c ∈ pad ++ [' '], c = ' ' := by
    intro c hc
    rcases List.mem_append.mp hc with hc | hc
    · exact hpad c hc
    · simpa using hc
  have hPADne : pad ++ [' '] ≠ ([] : Str) := by simp
  have hmono : ∀ p : Str, isSubList p (textOf r) = true →
      isSubList p (textOf r') = true := by
    intro p h
    rw [hT2]
    exact isSubList_append_mono _ h
  have htok : tokensOf (textOf r') = tokensOf (textOf r) ++ ["whatsapp".data] := by
    rw [hT]
    exact tokensOf_append_pad (textOf r) pad hpad
  have hcom : ∀ p ∈ committee_phrases, isSubList p (textOf r') = isSubList p (textOf r) := by
    intro p hpmem
    by_cases hold : isSubList p (textOf r) = true
    · rw [hold, hmono p hold]
    · have hold' : isSubList p (textOf r) = false := by simpa using hold
      have hnew : isSubList p (textOf r') = false := by
        by_contra habs
        rw [Bool.not_eq_false] at habs
        fin_cases hpmem
        case _ => -- "marketing team"
          refine hold (by
            rw [isSubList_iff] at habs ⊢
            rw [hT2] at habs
            exact no_new_infix_pad _ _ _ _ (by decide) (by decide) (by decide)
              (by decide) hPADsp hPADne habs)
        case _ =>
          refine hold (by
            rw [isSubList_iff] at habs ⊢
            rw [hT2] at habs
            exact no_new_infix_pad _ _ _ _ (by decide) (by decide) (by decide)
              (by decide) hPADsp hPADne habs)
        case _ =>
          refine hold (by
            rw [isSubList_iff] at habs ⊢
            rw [hT2] at habs
            exact no_new_infix_pad _ _ _ _ (by decide) (by decide) (by decide)
              (by decide) hPADsp hPADne habs)
        case _ => -- "vp "
          exact hold (hvp habs)
        case _ =>
          refine hold (by
            rw [isSubList_iff] at habs ⊢
            rw [hT2] at habs
            exact no_new_infix_pad _ _ _ _ (by decide) (by decide) (by decide)
              (by decide) hPADsp hPADne habs)
        case _ =>
          refine hold (by
            rw [isSubList_iff] at habs ⊢
            rw [hT2] at habs
            exact no_new_infix_pad _ _ _ _ (by decide) (by decide) (by decide)
              (by decide) hPADsp hPADne habs)
        case _ =>
          refine hold (by
            rw [isSubList_iff] at habs ⊢
            rw [hT2] at habs
            exact no_new_infix_pad _ _ _ _ (by decide) (by decide) (by decide)
              (by decide) hPADsp hPADne habs)
        case _ =>
          refine hold (by
            rw [isSubList_iff] at habs ⊢
            rw [hT2] at habs
            exact no_new_infix_pad _ _ _ _ (by decide) (by decide) (by decide)
              (by decide) hPADsp hPADne habs)
        case _ =>
          refine hold (by
            rw [isSubList_iff] at habs ⊢
            rw [hT2] at habs
            exact no_new_infix_pad _ _ _ _ (by decide) (by decide) (by decide)
              (by decide) hPADsp hPADne habs)
        case _ =>
          refine hold (by
            rw [isSubList_iff] at habs ⊢
            rw [hT2] at habs
            exact no_new_infix_pad _ _ _ _ (by decide) (by decide) (by decide)
              (by decide) hPADsp hPADne habs)
        case _ =>
          refine hold (by
            rw [isSubList_iff] at habs ⊢
            rw [hT2] at habs
            exact no_new_infix_pad _ _ _ _ (by decide) (by decide) (by decide)
              (by decide) hPADsp hPADne habs)
      rw [hnew, hold']
  have hcomEq : matchedPhrases committee_phrases (textOf r') =
      matchedPhrases committee_phrases (textOf r) :=
    List.filter_congr (fun p hp => hcom p hp)
  have hkey : ∀ (tbl : List (Str × Int)), (∀ kp ∈ tbl, kp.1 ≠ "whatsapp".data) →
      tbl.filter (fun kp => decide (kp.1 ∈ tokensOf (textOf r'))) =
      tbl.filter (fun kp => decide (kp.1 ∈ tokensOf (textOf r))) := by
    intro tbl hne
    apply List.filter_congr
    intro kp hkp
    apply decide_eq_decide.mpr
    rw [htok]
    simp only [List.mem_append, List.mem_singleton]
    exact or_iff_left (hne kp hkp)
  have hsvc : svcMatched (tokensOf (textOf r')) = svcMatched (tokensOf (textOf r)) :=
    hkey service_tokens (by decide)
  have hrole : roleMatched (tokensOf (textOf r')) = roleMatched (tokensOf (textOf r)) :=
    hkey solo_seller_tokens (by decide)
  have hnegm : negMatched (tokensOf (textOf r')) = negMatched (tokensOf (textOf r)) :=
    hkey negative_tokens (by decide)
  have hIm : intentScore (textOf r) ≤ intentScore (textOf r') := by
    have hlen : (matchedPhrases booking_phrases (textOf r)).length ≤
        (matchedPhrases booking_phrases (textOf r')).length :=
      filter_length_mono (fun p _ hp => hmono p hp)
    unfold intentScore
    by_cases h1 : matchedPhrases booking_phrases (textOf r) = []
    · rw [if_pos h1]
      by_cases h2 : matchedPhrases booking_phrases (textOf r') = []
      · rw [if_pos h2]
      · rw [if_neg h2]
        have h0 : (0:Int) ≤ ((matchedPhrases booking_phrases (textOf r')).length : Int) := by
          positivity
        omega
    · have h2 : matchedPhrases booking_phrases (textOf r') ≠ [] := by
        intro habs
        rw [habs] at hlen
        simp only [List.length_nil, Nat.le_zero] at hlen
        exact h1 (List.length_eq_zero.mp hlen)
      rw [if_neg h1, if_neg h2]
      have hlen' : ((matchedPhrases booking_phrases (textOf r)).length : Int) ≤
          ((matchedPhrases booking_phrases (textOf r')).length : Int) := by
        exact_mod_cast hlen
      omega
  have hPm : painScore (textOf r) ≤ painScore (textOf r') := by
    have hlen : (matchedPhrases pain_phrases (textOf r)).length ≤
        (matchedPhrases pain_phrases (textOf r')).length :=
      filter_length_mono (fun p _ hp => hmono p hp)
    unfold painScore
    by_cases h1 : matchedPhrases pain_phrases (textOf r) = []
    · rw [if_pos h1]
      by_cases h2 : matchedPhrases pain_phrases (textOf r') = []
      · rw [if_pos h2]
      · rw [if_neg h2]
        have h0 : (0:Int) ≤ ((matchedPhrases pain_phrases (textOf r')).length : Int) := by
          positivity
        omega
    · have h2 : matchedPhrases pain_phrases (textOf r') ≠ [] := by
        intro habs
        rw [habs] at hlen
        simp only [List.length_nil, Nat.le_zero] at hlen
        exact h1 (List.length_eq_zero.mp hlen)
      rw [if_neg h1, if_neg h2]
      have hlen' : ((matchedPhrases pain_phrases (textOf r)).length : Int) ≤
          ((matchedPhrases pain_phrases (textOf r')).length : Int) := by
        exact_mod_cast hlen
      omega
  have hOm : ownerScore (textOf r) (tokensOf (textOf r)) ≤
      ownerScore (textOf r') (tokensOf (textOf r')) := by
    unfold ownerScore
    by_cases h1 : ownerHit (textOf r) (tokensOf (textOf r)) = true
    · have h2 : ownerHit (textOf r') (tokensOf (textOf r')) = true := by
        unfold ownerHit at h1 ⊢
        rcases Bool.or_eq_true_iff.mp h1 with h | h
        · rw [List.any_eq_true] at h
          obtain ⟨o, ho, hs⟩ := h
          exact Bool.or_eq_true_iff.mpr
            (Or.inl (List.any_eq_true.mpr ⟨o, ho, hmono o hs⟩))
        · rw [decide_eq_true_iff] at h
          refine Bool.or_eq_true_iff.mpr (Or.inr ?_)
          rw [decide_eq_true_iff, htok]
          exact List.mem_append.mpr (Or.inl h)
      simp [h1, h2]
    · simp only [h1, Bool.false_eq_true, if_false]
      split_ifs <;> omega
  have hWebm : webScore r.website (textOf r) ≤ webScore r'.website (textOf r') := by
    rw [hw]
    unfold webScore
    by_cases h1 : trimChars r.website = []
    · rw [if_pos h1, if_pos h1]
      by_cases h2 : (contact_words.any fun x => isSubList x (textOf r)) = true
      · have h3 : (contact_words.any fun x => isSubList x (textOf r')) = true := by
          rw [List.any_eq_true] at h2 ⊢
          obtain ⟨x, hx, hs⟩ := h2
          exact ⟨x, hx, hmono x hs⟩
        simp [h2, h3]
      · simp only [h2, Bool.false_eq_true, if_false]
        split_ifs <;> omega
    · rw [if_neg h1, if_neg h1]
  have hFitEq : fitScore (hasLocalService (tokensOf (textOf r'))) r'.website =
      fitScore (hasLocalService (tokensOf (textOf r))) r.website := by
    rw [hw]
    unfold hasLocalService
    rw [hsvc]
  have hWa : (if whatsappHit (textOf r) (tokensOf (textOf r)) then (18:Int) else 0) ≤
      (if whatsappHit (textOf r') (tokensOf (textOf r')) then 18 else 0) := by
    by_cases h1 : whatsappHit (textOf r) (tokensOf (textOf r)) = true
    · have h2 : whatsappHit (textOf r') (tokensOf (textOf r')) = true := by
        unfold whatsappHit at h1 ⊢
        rcases Bool.or_eq_true_iff.mp h1 with h | h
        · rw [decide_eq_true_iff] at h
          refine Bool.or_eq_true_iff.mpr (Or.inl ?_)
          rw [decide_eq_true_iff, htok]
          exact List.mem_append.mpr (Or.inl h)
        · exact Bool.or_eq_true_iff.mpr (Or.inr (hmono _ h))
      simp [h1, h2]
    · simp only [h1, Bool.false_eq_true, if_false]
      split_ifs <;> omega
  have hTel : (if telHit (textOf r) then (8:Int) else 0) ≤
      (if telHit (textOf r') then 8 else 0) := by
    by_cases h1 : telHit (textOf r) = true
    · have h2 : telHit (textOf r') = true := hmono _ h1
      simp [h1, h2]
    · simp only [h1, Bool.false_eq_true, if_false]
      split_ifs <;> omega
  have hEm : (if hasEmailB (textOf r) then (6:Int) else 0) ≤
      (if hasEmailB (textOf r') then 6 else 0) := by
    by_cases h1 : hasEmailB (textOf r) = true
    · have h2 : hasEmailB (textOf r') = true := by
        rw [hT2]
        exact hasEmailB_append_mono _ h1
      simp [h1, h2]
    · simp only [h1, Bool.false_eq_true, if_false]
      split_ifs <;> omega
  have hraw : rawScore r ≤ rawScore r' := by
    unfold rawScore
    rw [hph, hFitEq]
    rw [show svcScore (tokensOf (textOf r')) = svcScore (tokensOf (textOf r)) by
          unfold svcScore; rw [hsvc],
        show roleScore (tokensOf (textOf r')) = roleScore (tokensOf (textOf r)) by
          unfold roleScore; rw [hrole],
        show negScore (tokensOf (textOf r')) = negScore (tokensOf (textOf r)) by
          unfold negScore; rw [hnegm],
        show committeeScore (textOf r') = committeeScore (textOf r) by
          unfold committeeScore; rw [hcomEq]]
    linarith [hIm, hPm, hOm, hWebm, hWa, hTel, hEm]
  show clampScore (rawScore r) ≤ clampScore (rawScore r')
  unfold clampScore
  exact max_le_max (le_refl 0) (min_le_min (le_refl 100) hraw)

/-- Concrete witness rows for the monotonicity theorem: a plumber row, and the
same row with `whatsapp` in the provenance-tag position appended to the text. -/
def srowPlumber : SRow :=
  { name := "plumber".data, bio := [], location := [], website := [], phone := [],
    recent_post_snippet := [], signal_keywords_matched := [], profile_url := [] }

def srowPlumberWa : SRow :=
  { srowPlumber with profile_url := "whatsapp".data }

theorem score_whatsapp_monotone_witness :
    (score_row srowPlumber).1 ≤ (score_row srowPlumberWa).1 :=
  score_whatsapp_monotone srowPlumber srowPlumberWa rfl rfl
    ⟨List.replicate 6 ' ', by decide, by decide⟩ (by decide)

end Galzu
